import Mathlib

/-!
Verification development for the homebook repository: a shallow embedding of
the TD Bank statement parser (`internal/parser/tdbank.go`), the job queue
(`internal/database` jobs + `internal/jobs/worker.go`), the parse-statement
job handler (`internal/jobs/parse_statement.go`), and the auto-matcher
(`internal/reconciliation`).

Conventions of the embedding:
 - Go `float64` money amounts are modelled as `ℚ`; every amount handled by the
   code is a decimal with two fraction digits, on which `float64` comparison,
   negation and `math.Abs` agree with the rational operations.
 - Go strings are modelled as Lean `String` / `List Char`; the inputs of
   interest are ASCII, and the `strings.ToUpper` / `unicode.IsSpace` models
   below implement the ASCII fragment of those functions.
 - Go regular expressions are modelled by a small combinator engine
   (`RegM` below) with the leftmost-first preference semantics that the
   `regexp` package documents for submatches; each pattern of the source is
   transcribed combinator by combinator.
 - SQL tables are modelled as lists of row structures, and each SQL statement
   of the source as a pure function on those lists.  A SQLite transaction is
   one atomic step.
-/

namespace Homebook

/-! ## ASCII string primitives (models of the Go stdlib functions used) -/

/-- ASCII lower-casing of one character, as `toLower` in the
reconciliation package does byte-wise (`c += 'a' - 'A'`). -/
def lowerA (c : Char) : Char :=
  if 'A' ≤ c ∧ c ≤ 'Z' then Char.ofNat (c.toNat + 32) else c

/-- ASCII upper-casing of one character (`strings.ToUpper` on ASCII input). -/
def upperA (c : Char) : Char :=
  if 'a' ≤ c ∧ c ≤ 'z' then Char.ofNat (c.toNat - 32) else c

/-- `strings.ToUpper`, restricted to ASCII input. -/
def toUpperS (s : String) : String := String.mk (s.toList.map upperA)

/-- The character class that `unicode.IsSpace` recognises on ASCII input,
used by `strings.TrimSpace`. -/
def isGoSpace (c : Char) : Bool :=
  c = ' ' ∨ c = '\t' ∨ c = '\n' ∨ c = Char.ofNat 11 ∨ c = Char.ofNat 12 ∨ c = '\r'

/-- The character class of the regexp `\s` (RE2 Perl class): tab, newline,
form feed, carriage return, space. -/
def isReSpace (c : Char) : Bool :=
  c = '\t' ∨ c = '\n' ∨ c = Char.ofNat 12 ∨ c = '\r' ∨ c = ' '

/-- ASCII decimal digit, the regexp class `\d`. -/
def isDigitA (c : Char) : Bool := '0' ≤ c ∧ c ≤ '9'

/-- `strings.TrimSpace`, restricted to ASCII input. -/
def goTrimSpace (s : String) : String :=
  String.mk (((s.toList.dropWhile isGoSpace).reverse.dropWhile isGoSpace).reverse)

/-- Substring containment over character lists: `needle` occurs contiguously
inside `haystack` (an empty needle always occurs). -/
def containsL (haystack needle : List Char) : Bool :=
  needle.isPrefixOf haystack ||
    match haystack with
    | [] => needle.isEmpty
    | _ :: t => containsL t needle

/-- `strings.Contains`, on the character-list model. -/
def containsS (haystack needle : String) : Bool :=
  containsL haystack.toList needle.toList

/-- `strings.Split s "/"` for a one-character separator: the list of chunks
between occurrences of the separator. -/
def splitOnCharL (sep : Char) : List Char → List (List Char)
  | [] => [[]]
  | c :: rest =>
    match splitOnCharL sep rest with
    | [] => [[]]
    | g :: gs => if c = sep then [] :: g :: gs else (c :: g) :: gs

/-- `strings.Split` with a one-character separator, on strings. -/
def splitOnCharS (sep : Char) (s : String) : List String :=
  (splitOnCharL sep s.toList).map String.mk

/-- Value of an all-digit character list read in base 10. -/
def digitsToNat (cs : List Char) : Nat :=
  cs.foldl (fun a c => a * 10 + (c.toNat - '0'.toNat)) 0

/-- `strconv.Atoi` with its error ignored, as every call site of the parser
does: an optionally signed run of digits yields its value, anything else
yields `0`. -/
def atoi (s : String) : Int :=
  match s.toList with
  | [] => 0
  | '+' :: cs => if cs ≠ [] ∧ cs.all isDigitA then (digitsToNat cs : Int) else 0
  | '-' :: cs => if cs ≠ [] ∧ cs.all isDigitA then -(digitsToNat cs : Int) else 0
  | cs => if cs.all isDigitA then (digitsToNat cs : Int) else 0

/-- `fmt.Sprintf "%02d"` of an integer. -/
def pad2 (n : Int) : String :=
  if 0 ≤ n ∧ n < 10 then "0" ++ toString n else toString n

/-! ## The parser state and `formatDate` (tdbank.go lines 670-689) -/

/-- The mutable fields of `TDBankParser` that date formatting reads
(`statementYear`, `statementMonth`, set by `parseHeader`). -/
structure TDBankParser where
  statementYear : Int
  statementMonth : Int
deriving Repr, DecidableEq

/-- `formatDate`: converts `MM/DD` to `YYYY-MM-DD` using the statement
year/month, with the year-boundary adjustment of the source. -/
def formatDate (p : TDBankParser) (mmdd : String) : String :=
  match splitOnCharS '/' mmdd with
  | [ms, ds] =>
    let month := atoi ms
    let day := atoi ds
    let year :=
      if p.statementMonth = 12 ∧ month = 1 then p.statementYear + 1
      else if p.statementMonth = 1 ∧ month = 12 then p.statementYear - 1
      else p.statementYear
    toString year ++ "-" ++ pad2 month ++ "-" ++ pad2 day
  | _ => ""

/-- The year-inference rule as the specification words it (§4.1 step 8):
the record month is compared to the statement's reference month; 1 against 12
adds a year, 12 against 1 subtracts one, anything else keeps the reference
year. -/
def specYearInference (refYear refMonth recordMonth : Int) : Int :=
  if recordMonth = 1 ∧ refMonth = 12 then refYear + 1
  else if recordMonth = 12 ∧ refMonth = 1 then refYear - 1
  else refYear

/-! ## Job queue (schema.sql `jobs` table, unnamed jobs database file,
`internal/jobs/worker.go`) -/

/-- One row of the `jobs` table. -/
structure JobRow where
  id : Nat
  jobType : String
  payload : String
  status : String
  progress : Nat
  result : String
  attempts : Nat
  maxAttempts : Nat
  createdAt : Nat
  startedAt : Option Nat
  completedAt : Option Nat
deriving Repr, DecidableEq

/-- `UPDATE jobs ... WHERE id = ?`: apply `f` to every row whose id matches. -/
def updateJobRow (jobs : List JobRow) (id : Nat) (f : JobRow → JobRow) : List JobRow :=
  jobs.map (fun j => if j.id = id then f j else j)

/-- The running-minimum step used to model `ORDER BY created_at ASC LIMIT 1`:
keep the earlier-created row, first row winning ties. -/
def minByCreated (best : Option JobRow) (j : JobRow) : Option JobRow :=
  match best with
  | none => some j
  | some b => if j.createdAt < b.createdAt then some j else best

/-- The `SELECT ... WHERE status = 'pending' ORDER BY created_at ASC LIMIT 1`
of `ClaimNextJob`: the first row in table order among the pending rows of
minimal `created_at`. -/
def selectNextPending (jobs : List JobRow) : Option JobRow :=
  (jobs.filter (fun j => j.status = "pending")).foldl minByCreated none

/-- `ClaimNextJob`: one atomic transaction that selects the oldest pending
job, marks it running with `started_at = now` and `attempts + 1`, and returns
the updated snapshot; `none` (not an error) when the queue has no pending
job. -/
def claimNextJob (now : Nat) (jobs : List JobRow) : Option JobRow × List JobRow :=
  match selectNextPending jobs with
  | none => (none, jobs)
  | some j =>
    let claim := fun r : JobRow =>
      { r with status := "running", startedAt := some now, attempts := r.attempts + 1 }
    (some (claim j), updateJobRow jobs j.id claim)

/-- `FailJob`: mark a job failed with the error message as its result. -/
def failJob (now : Nat) (jobs : List JobRow) (id : Nat) (errMsg : String) : List JobRow :=
  updateJobRow jobs id
    (fun r => { r with status := "failed", result := errMsg, completedAt := some now })

/-- `RetryJob`: reset a job to pending, clearing the start time. -/
def retryJob (jobs : List JobRow) (id : Nat) : List JobRow :=
  updateJobRow jobs id (fun r => { r with status := "pending", startedAt := none })

/-- `CompleteJob`: mark a job completed with a result. -/
def completeJob (now : Nat) (jobs : List JobRow) (id : Nat) (result : String) : List JobRow :=
  updateJobRow jobs id
    (fun r => { r with status := "completed", progress := 100, result := result,
                       completedAt := some now })

/-- `Worker.processJob` after the handler returned an error with text
`errText`, for a claimed snapshot `job` (worker.go lines 98-108): if
`attempts >= max_attempts` the job is failed with the error text as result,
otherwise it is returned to pending. -/
def processJobErr (errText : String) (now : Nat) (job : JobRow)
    (jobs : List JobRow) : List JobRow :=
  if job.maxAttempts ≤ job.attempts then failJob now jobs job.id errText
  else retryJob jobs job.id

/-- The worker loop run against a handler that errors on every invocation:
each iteration claims the next pending job and processes it; the run stops
when a claim finds the queue empty or the fuel runs out.  Returns the final
table and the number of successful claims. -/
def workerRunErr (errText : String) (now : Nat) :
    Nat → List JobRow → List JobRow × Nat
  | 0, jobs => (jobs, 0)
  | fuel + 1, jobs =>
    match claimNextJob now jobs with
    | (none, _) => (jobs, 0)
    | (some j, jobs₁) =>
      let jobs₂ := processJobErr errText now j jobs₁
      let r := workerRunErr errText now fuel jobs₂
      (r.1, r.2 + 1)

/-- Any number of claim transactions executed one after the other — the only
schedules possible, since each `ClaimNextJob` is a single atomic
read-modify-write transaction.  Returns each claimant's result and the final
table. -/
def claimSeq (now : Nat) : Nat → List JobRow → List (Option JobRow) × List JobRow
  | 0, jobs => ([], jobs)
  | n + 1, jobs =>
    let c := claimNextJob now jobs
    let rest := claimSeq now n c.2
    (c.1 :: rest.1, rest.2)

/-- The snapshot transition `ClaimNextJob` applies to the selected row. -/
def claimMark (now : Nat) (r : JobRow) : JobRow :=
  { r with status := "running", startedAt := some now, attempts := r.attempts + 1 }

/-! ## A small regular-expression engine

Each Go pattern of tdbank.go is transcribed combinator by combinator.  A
matcher maps an input suffix to the list of possible (remainder, captures)
outcomes, ordered by the backtracking preference that Go's `regexp` package
guarantees for submatches (leftmost match, then the first alternative that a
backtracking search would find).  Every repetition in the source's patterns
is a repetition of a single character class, so a class repetition primitive
(producing the longest alternative first when greedy, shortest first when
lazy) together with sequencing, alternation and capture covers them all. -/

/-- Regex matcher: possible (remainder, captured groups) in preference
order. -/
def RegM := List Char → List (List Char × List String)

/-- The empty pattern. -/
def rmEps : RegM := fun cs => [(cs, [])]

/-- Sequencing; outcome order is the backtracking order. -/
def rmSeq (a b : RegM) : RegM := fun cs =>
  (a cs).flatMap (fun p => (b p.1).map (fun q => (q.1, p.2 ++ q.2)))

/-- Sequence a list of patterns. -/
def rmSeqs (l : List RegM) : RegM := l.foldr rmSeq rmEps

/-- Alternation, first alternative preferred. -/
def rmAlt (a b : RegM) : RegM := fun cs => a cs ++ b cs

/-- A literal character. -/
def rmLit (c : Char) : RegM := fun cs =>
  match cs with
  | c' :: rest => if c' = c then [(rest, [])] else []
  | [] => []

/-- A case-insensitive literal character (ASCII folding, the fragment the
`(?i)` patterns of the source exercise). -/
def rmLitCI (c : Char) : RegM := fun cs =>
  match cs with
  | c' :: rest => if lowerA c' = lowerA c then [(rest, [])] else []
  | [] => []

/-- One character of a class. -/
def rmClass (p : Char → Bool) : RegM := fun cs =>
  match cs with
  | c' :: rest => if p c' then [(rest, [])] else []
  | [] => []

/-- Repetition of a character class with a minimum count, optional maximum
count and a greediness flag: the alternatives are the possible run lengths,
longest first when greedy. -/
def rmClassRep (p : Char → Bool) (lo : Nat) (hi : Option Nat) (greedy : Bool) : RegM :=
  fun cs =>
    let run := (cs.takeWhile p).length
    let top := match hi with | some h => Nat.min h run | none => run
    if top < lo then []
    else
      let ks := (List.range' lo (top - lo + 1)).map
        (fun k => (cs.drop k, ([] : List String)))
      if greedy then ks.reverse else ks

/-- A capturing group: records the consumed text in front of the inner
captures. -/
def rmCap (a : RegM) : RegM := fun cs =>
  (a cs).map (fun p => (p.1, String.mk (cs.take (cs.length - p.1.length)) :: p.2))

/-- A literal string. -/
def rmStr (s : String) : RegM := rmSeqs (s.toList.map rmLit)

/-- A case-insensitive literal string. -/
def rmStrCI (s : String) : RegM := rmSeqs (s.toList.map rmLitCI)

/-- Greedy option (`X?`): with-`X` preferred. -/
def rmOptGreedy (a : RegM) : RegM := rmAlt a rmEps

/-- Match a `^...$`-anchored pattern against the whole string: the first
outcome in preference order that consumes the input. -/
def reFullMatch (a : RegM) (s : String) : Option (List String) :=
  ((a s.toList).find? (fun p => p.1.isEmpty)).map (·.2)

/-- Leftmost-first unanchored search (`FindStringSubmatch`), scanning start
positions left to right. -/
def reFindAux (a : RegM) : List Char → Option (List String)
  | [] => ((a []).head?).map (·.2)
  | c :: rest =>
    match (a (c :: rest)).head? with
    | some p => some p.2
    | none => reFindAux a rest

/-- `FindStringSubmatch` for an unanchored pattern. -/
def reFind (a : RegM) (s : String) : Option (List String) := reFindAux a s.toList

/-- `MatchString` for an unanchored pattern. -/
def reMatches (a : RegM) (s : String) : Bool := (reFind a s).isSome

/-- `FindAllStringSubmatch`: repeated leftmost-first search, continuing after
each match (one position forward after an empty match), fuelled by the input
length. -/
def reFindAllAux (a : RegM) : Nat → List Char → List (List String)
  | 0, _ => []
  | fuel + 1, cs =>
    match (a cs).head? with
    | some p =>
      if p.1.length < cs.length then p.2 :: reFindAllAux a fuel p.1
      else
        match cs with
        | [] => [p.2]
        | _ :: rest => p.2 :: reFindAllAux a fuel rest
    | none =>
      match cs with
      | [] => []
      | _ :: rest => reFindAllAux a fuel rest

/-- All matches of an unanchored pattern. -/
def reFindAll (a : RegM) (s : String) : List (List String) :=
  reFindAllAux a (s.toList.length + 1) s.toList

/-! ## The tdbank.go patterns -/

/-- The regexp class `[\d,]` of the amount patterns. -/
def isAmtChar (c : Char) : Bool := isDigitA c || c = ','

/-- The regexp `.`: any character but a newline. -/
def isNotNl (c : Char) : Bool := c ≠ '\n'

/-- The date group `(\d{2}/\d{2})` body. -/
def dateGroupM : RegM :=
  rmSeqs [rmClassRep isDigitA 2 (some 2) true, rmLit '/',
          rmClassRep isDigitA 2 (some 2) true]

/-- The amount group `([\d,]+\.\d{2})` body. -/
def amountGroupM : RegM :=
  rmSeqs [rmClassRep isAmtChar 1 none true, rmLit '.',
          rmClassRep isDigitA 2 (some 2) true]

/-- `transactionLinePattern`:
`^(\d{2}/\d{2})\s+(.+?)\s{2,}([\d,]+\.\d{2})\s*$`. -/
def transactionLineM : RegM :=
  rmSeqs [rmCap dateGroupM,
          rmClassRep isReSpace 1 none true,
          rmCap (rmClassRep isNotNl 1 none false),
          rmClassRep isReSpace 2 none true,
          rmCap amountGroupM,
          rmClassRep isReSpace 0 none true]

/-- `transactionLinePattern.FindStringSubmatch` on one line, returning the
(date, description, amount) captures when the line matches. -/
def transactionLineMatch (line : String) : Option (String × String × String) :=
  match reFullMatch transactionLineM line with
  | some [d, desc, a] => some (d, desc, a)
  | _ => none

/-- `continuationLinePattern`: `^\s{6,}(\S.*)$`. -/
def continuationLineM : RegM :=
  rmSeqs [rmClassRep isReSpace 6 none true,
          rmCap (rmSeqs [rmClass (fun c => ¬ isReSpace c),
                         rmClassRep isNotNl 0 none true])]

/-- `continuationLinePattern.FindStringSubmatch` on one line. -/
def continuationLineMatch (line : String) : Option String :=
  match reFullMatch continuationLineM line with
  | some [g] => some g
  | _ => none

/-- The card-number filter of `parsePayments`: `^\d{16}$`. -/
def digit16M : RegM := rmClassRep isDigitA 16 (some 16) true

/-- `regexp.MustCompile("^\\d{16}$").MatchString` on a continuation line. -/
def is16Digits (s : String) : Bool := (reFullMatch digit16M s).isSome

/-- `checkPattern`: `(\d{2}/\d{2})\s+(\d+)\*?\s+([\d,]+\.\d{2})`,
unanchored. -/
def checkPatternM : RegM :=
  rmSeqs [rmCap dateGroupM,
          rmClassRep isReSpace 1 none true,
          rmCap (rmClassRep isDigitA 1 none true),
          rmOptGreedy (rmLit '*'),
          rmClassRep isReSpace 1 none true,
          rmCap amountGroupM]

/-! ## Amount parsing and line scanning -/

/-- A plain decimal (optional sign, digits, optional point and fraction
digits), as `strconv.ParseFloat` reads the comma-stripped amount captures;
anything else is a parse error. -/
def parseDecimal (cs : List Char) : Option ℚ :=
  let signI : Int := if cs.head? = some '-' then -1 else 1
  let body := if cs.head? = some '-' ∨ cs.head? = some '+' then cs.drop 1 else cs
  let ip := body.takeWhile isDigitA
  let rest := body.drop ip.length
  match rest with
  | [] => if ip.isEmpty then none else some (mkRat (signI * digitsToNat ip) 1)
  | '.' :: frac =>
    if frac.all isDigitA ∧ (¬ ip.isEmpty ∨ ¬ frac.isEmpty) then
      some (mkRat (signI * (digitsToNat ip * 10 ^ frac.length + digitsToNat frac))
        (10 ^ frac.length))
    else none
  | _ => none

/-- `parseAmount`: strip `,` and `$`, then `strconv.ParseFloat` with the
error ignored (yielding `0`). -/
def parseAmount (s : String) : ℚ :=
  (parseDecimal (s.toList.filter (fun c => c ≠ ',' ∧ c ≠ '$'))).getD 0

/-- Drop one trailing carriage return, as `bufio.ScanLines` does. -/
def dropCR (cs : List Char) : List Char :=
  if cs.getLast? = some '\r' then cs.dropLast else cs

/-- The lines a `bufio.Scanner` yields over a string: newline-separated, no
empty final token when the text ends with a newline. -/
def scanLines (s : String) : List String :=
  let gs := splitOnCharL '\n' s.toList
  let gs := match gs.getLast? with
    | some [] => gs.dropLast
    | _ => gs
  gs.map (fun g => String.mk (dropCR g))

/-! ## Vendor patterns and heuristic enrichment (tdbank.go lines 718-812) -/

/-- The apostrophe character. -/
def apos : Char := Char.ofNat 39

/-- The apostrophe as a one-character string. -/
def aposS : String := String.mk [apos]

/-- Word characters, for the `\b` boundary of the AT&T pattern. -/
def isWordChar (c : Char) : Bool :=
  isDigitA c || ('a' ≤ c ∧ c ≤ 'z') || ('A' ≤ c ∧ c ≤ 'Z') || c = '_'

/-- The `\bATT\s` alternative of the AT&T pattern, after the boundary. -/
def attM : RegM := rmSeqs [rmStrCI "ATT", rmClass isReSpace]

/-- Scan for `\bATT\s`: the position after a non-word character (or the
start) where `ATT` plus one whitespace matches. -/
def attScan (prev : Option Char) : List Char → Bool
  | [] => false
  | c :: rest =>
    (((prev.map isWordChar).getD false = false) && !(attM (c :: rest)).isEmpty)
      || attScan (some c) rest

/-- `MatchString` of the AT&T pattern `(?i)\bATT\s|AT&T`. -/
def vendorATT (s : String) : Bool := attScan none s.toList || reMatches (rmStrCI "AT&T") s

/-- For `\s*` gaps inside vendor patterns. -/
def wsStarM : RegM := rmClassRep isReSpace 0 none true

/-- The `vendorPatterns` table in the order of the source text.  The Go
source holds it in a `map`, whose iteration order is unspecified and
randomised per run; the functions below therefore take the iteration order
as a parameter, with this list as the written order. -/
def vendorPatternsList : List (String × (String → Bool)) :=
  [("Jetro", reMatches (rmStrCI "JETRO")),
   ("Chef" ++ aposS ++ "s Choice",
     reMatches (rmSeqs [rmStrCI "CHEF", rmOptGreedy (rmClass isNotNl),
       rmOptGreedy (rmLitCI 'S'), wsStarM, rmStrCI "CHOICE"])),
   ("Cogent Waste", reMatches (rmSeqs [rmStrCI "COGENT", wsStarM, rmStrCI "WASTE"])),
   ("Con Edison", reMatches (rmSeqs [rmStrCI "CON", wsStarM, rmStrCI "ED"])),
   ("National Grid", reMatches (rmAlt (rmStrCI "NGRID")
     (rmSeqs [rmStrCI "NATIONAL", wsStarM, rmStrCI "GRID"]))),
   ("Uber Eats", reMatches (rmStrCI "UBER")),
   ("Grubhub", reMatches (rmStrCI "GRUBHUB")),
   ("DoorDash", reMatches (rmStrCI "DOORDASH")),
   ("Verizon", reMatches (rmStrCI "VERIZON")),
   ("AT&T", vendorATT),
   ("Sampar" ++ aposS ++ "s",
     reMatches (rmSeqs [rmStrCI "SAMPAR", rmOptGreedy (rmLitCI 'S')])),
   ("Clover", reMatches (rmStrCI "CLOVER")),
   ("Cintas", reMatches (rmStrCI "CINTAS")),
   ("Dish Network", reMatches (rmSeqs [rmStrCI "DISH", wsStarM, rmStrCI "NETWORK"])),
   ("Bankcard", reMatches (rmSeqs [rmStrCI "BANKCARD", wsStarM, rmStrCI "MTOT"])),
   ("Gobwa Exotic", reMatches (rmSeqs [rmStrCI "GOBWA", wsStarM, rmStrCI "EXOTIC"])),
   ("Caribbean Depot", reMatches (rmSeqs [rmStrCI "CARIBBEAN", wsStarM, rmStrCI "DEPOT"])),
   ("C&S Meats", reMatches (rmSeqs [rmStrCI "C", wsStarM, rmStrCI "AND", wsStarM,
     rmStrCI "S", wsStarM, rmStrCI "MEATS"])),
   ("Good Food", reMatches (rmSeqs [rmStrCI "GOOD", wsStarM, rmStrCI "FOOD", wsStarM,
     rmStrCI "FOR", wsStarM, rmStrCI "LESS"])),
   ("INP Foods", reMatches (rmSeqs [rmStrCI "INP", wsStarM, rmStrCI "FOODS"])),
   ("Wegmans", reMatches (rmStrCI "WEGMANS"))]

/-- The class `[A-Z0-9\s&']` of `cityStatePattern`. -/
def cityStateClass (c : Char) : Bool :=
  ('A' ≤ c ∧ c ≤ 'Z') || isDigitA c || isReSpace c || c = '&' || c = apos

/-- Upper-case letters, the class `[A-Z]`. -/
def upperClass (c : Char) : Bool := 'A' ≤ c ∧ c ≤ 'Z'

/-- `cityStatePattern`: `([A-Z][A-Z0-9\s&']+?)\s+(?:[A-Z]+\s+)?\*\s*[A-Z]{2}`. -/
def cityStateM : RegM :=
  rmSeqs [rmCap (rmSeqs [rmClass upperClass, rmClassRep cityStateClass 1 none false]),
          rmClassRep isReSpace 1 none true,
          rmOptGreedy (rmSeqs [rmClassRep upperClass 1 none true,
                               rmClassRep isReSpace 1 none true]),
          rmLit '*',
          wsStarM,
          rmClassRep upperClass 2 (some 2) true]

/-- Fold a non-empty list of alternatives left preferred. -/
def rmAlts (l : List RegM) : RegM := l.foldr rmAlt (fun _ => [])

/-- The prefix-code strip `^(DBCRD|DEBIT|POS|AP|AUT|VISA|DDA|PUR)\s+`
replaced with the empty string (being start-anchored it fires at most
once). -/
def stripVendorCode (v : String) : String :=
  let m := rmSeqs [rmAlts [rmStr "DBCRD", rmStr "DEBIT", rmStr "POS", rmStr "AP",
            rmStr "AUT", rmStr "VISA", rmStr "DDA", rmStr "PUR"],
            rmClassRep isReSpace 1 none true]
  match (m v.toList).head? with
  | some p => String.mk p.1
  | none => v

/-- `extractVendorHint`, with the map iteration order as an explicit
parameter: the first pattern of the order matching the description names the
vendor; otherwise the business-name/city/state extraction with known prefix
codes stripped is attempted. -/
def extractVendorHint (order : List (String × (String → Bool)))
    (description : String) : String :=
  match order.find? (fun pr => pr.2 description) with
  | some pr => pr.1
  | none =>
    match reFind cityStateM description with
    | some (g :: _) =>
      let vendor := stripVendorCode (goTrimSpace g)
      if 3 < vendor.length then vendor else ""
    | _ => ""

/-- `categorizeTransaction`: category from type and case-insensitive
substring checks on the description, split by amount sign. -/
def categorizeTransaction (txnType description : String) (amount : ℚ) : String :=
  let descUpper := toUpperS description
  if 0 < amount then
    if containsS descUpper "BANKCARD" || containsS descUpper "MTOT DEP" then "income_cards"
    else if containsS descUpper "UBER" then "income_delivery"
    else if containsS descUpper "GRUBHUB" then "income_delivery"
    else if containsS descUpper "DOORDASH" then "income_delivery"
    else if containsS descUpper "REFUND" then "refund"
    else if containsS descUpper "OD GRACE" || containsS descUpper "FEE REFUND" then "refund"
    else "income_other"
  else if txnType = "check" then "expense_check"
  else if txnType = "fee" then "fee"
  else if containsS descUpper "OVERDRAFT" then "fee"
  else if containsS descUpper "TRANSFER" || containsS descUpper "XFER" then "transfer"
  else if containsS descUpper "ATM" then "atm"
  else "expense"

/-! ## Section parsers (tdbank.go lines 445-668) -/

/-- `ParsedTransaction` of tdbank.go. -/
structure ParsedTransaction where
  postingDate : String
  description : String
  amount : ℚ
  transactionType : String
  category : String
  checkNumber : String
  vendorHint : String
  referenceNumber : String
deriving Repr, DecidableEq

/-- `finalizeTransaction`: fill category and vendor hint from the final
description. -/
def finalizeTransaction (order : List (String × (String → Bool)))
    (txn : ParsedTransaction) : ParsedTransaction :=
  { txn with
      category := categorizeTransaction txn.transactionType txn.description txn.amount,
      vendorHint := extractVendorHint order txn.description }

/-- The body of the `parseDeposits` scanner loop for one line. -/
def depositsStep (p : TDBankParser) (order : List (String × (String → Bool)))
    (acc : List ParsedTransaction) (line : String) : List ParsedTransaction :=
  match transactionLineMatch line with
  | some (d, desc, a) =>
    acc ++ [finalizeTransaction order
      { postingDate := formatDate p d, description := goTrimSpace desc,
        amount := parseAmount a, transactionType := "deposit",
        category := "", checkNumber := "", vendorHint := "", referenceNumber := "" }]
  | none => acc

/-- `parseDeposits`: one record per matching line, positive amount, type
`deposit`. -/
def parseDeposits (p : TDBankParser) (order : List (String × (String → Bool)))
    (sectionText : String) : List ParsedTransaction :=
  if goTrimSpace sectionText = "" then [] else
  (scanLines sectionText).foldl (depositsStep p order) []

/-- The body of the `parseCredits` scanner loop for one line. -/
def creditsStep (p : TDBankParser) (order : List (String × (String → Bool)))
    (acc : List ParsedTransaction) (line : String) : List ParsedTransaction :=
  match transactionLineMatch line with
  | some (d, desc, a) =>
    acc ++ [finalizeTransaction order
      { postingDate := formatDate p d, description := goTrimSpace desc,
        amount := parseAmount a, transactionType := "credit",
        category := "", checkNumber := "", vendorHint := "", referenceNumber := "" }]
  | none => acc

/-- `parseCredits`: as deposits but type `credit`. -/
def parseCredits (p : TDBankParser) (order : List (String × (String → Bool)))
    (sectionText : String) : List ParsedTransaction :=
  if goTrimSpace sectionText = "" then [] else
  (scanLines sectionText).foldl (creditsStep p order) []

/-- The record a check-table match row builds. -/
def mkCheckTxn (p : TDBankParser) (d serial a : String) : ParsedTransaction :=
  { postingDate := formatDate p d, description := "Check #" ++ serial,
    amount := -(parseAmount a), transactionType := "check",
    category := "expense_check", checkNumber := serial,
    vendorHint := "", referenceNumber := "" }

/-- One step of the dedup fold of `parseChecks`: a `DATE SERIAL AMOUNT`
capture triple adds a record unless its serial is already in the `seen`
set. -/
def checksStep (p : TDBankParser) (st : List ParsedTransaction × List String)
    (caps : List String) : List ParsedTransaction × List String :=
  match caps with
  | [d, serial, a] =>
    if st.2.contains serial then st
    else (st.1 ++ [mkCheckTxn p d serial a], st.2 ++ [serial])
  | _ => st

/-- The dedup fold of `parseChecks` over the pattern matches, with the
`seen` set of serial numbers. -/
def checksFold (p : TDBankParser) (ms : List (List String)) :
    List ParsedTransaction × List String :=
  ms.foldl (checksStep p) ([], [])

/-- The serial-number capture of a match triple. -/
def capsSerial (caps : List String) : Option String :=
  match caps with
  | [_, s, _] => some s
  | _ => none

/-- `parseChecks`: all `DATE SERIAL AMOUNT` matches of the two-column table,
deduplicated by serial number (first occurrence kept), negative amount, type
`check`. -/
def parseChecks (p : TDBankParser) (sectionText : String) : List ParsedTransaction :=
  if goTrimSpace sectionText = "" then [] else
  (checksFold p (reFindAll checkPatternM sectionText)).1

/-- The body of the `parsePayments` scanner loop for one line, over the
state (emitted records, open record). -/
def paymentsStep (p : TDBankParser) (order : List (String × (String → Bool)))
    (st : List ParsedTransaction × Option ParsedTransaction) (line : String) :
    List ParsedTransaction × Option ParsedTransaction :=
  match transactionLineMatch line with
  | some (d, desc, a) =>
    let acc := match st.2 with
      | some cur => st.1 ++ [finalizeTransaction order cur]
      | none => st.1
    (acc, some { postingDate := formatDate p d, description := goTrimSpace desc,
                 amount := -(parseAmount a), transactionType := "debit",
                 category := "", checkNumber := "", vendorHint := "",
                 referenceNumber := "" })
  | none =>
    match st.2 with
    | some cur =>
      match continuationLineMatch line with
      | some contText =>
        let c := goTrimSpace contText
        if is16Digits c then st
        else (st.1, some { cur with description := cur.description ++ " " ++ c })
      | none => st
    | none => st

/-- `parsePayments`: dated lines open records, indented non-dated lines are
appended to the open description unless they are a sixteen-digit card
number; negative amount, type `debit`. -/
def parsePayments (p : TDBankParser) (order : List (String × (String → Bool)))
    (sectionText : String) : List ParsedTransaction :=
  if goTrimSpace sectionText = "" then [] else
  let st := (scanLines sectionText).foldl (paymentsStep p order) ([], none)
  match st.2 with
  | some cur => st.1 ++ [finalizeTransaction order cur]
  | none => st.1

/-- The body of the `parseWithdrawals` scanner loop for one line: as the
payments loop but every continuation line is appended (no card-number
filter) and the type is `withdrawal`. -/
def withdrawalsStep (p : TDBankParser) (order : List (String × (String → Bool)))
    (st : List ParsedTransaction × Option ParsedTransaction) (line : String) :
    List ParsedTransaction × Option ParsedTransaction :=
  match transactionLineMatch line with
  | some (d, desc, a) =>
    let acc := match st.2 with
      | some cur => st.1 ++ [finalizeTransaction order cur]
      | none => st.1
    (acc, some { postingDate := formatDate p d, description := goTrimSpace desc,
                 amount := -(parseAmount a), transactionType := "withdrawal",
                 category := "", checkNumber := "", vendorHint := "",
                 referenceNumber := "" })
  | none =>
    match st.2 with
    | some cur =>
      match continuationLineMatch line with
      | some contText =>
        (st.1, some { cur with description := cur.description ++ " " ++ goTrimSpace contText })
      | none => st
    | none => st

/-- `parseWithdrawals`. -/
def parseWithdrawals (p : TDBankParser) (order : List (String × (String → Bool)))
    (sectionText : String) : List ParsedTransaction :=
  if goTrimSpace sectionText = "" then [] else
  let st := (scanLines sectionText).foldl (withdrawalsStep p order) ([], none)
  match st.2 with
  | some cur => st.1 ++ [finalizeTransaction order cur]
  | none => st.1

/-- The body of the `parseFees` scanner loop for one line. -/
def feesStep (p : TDBankParser)
    (acc : List ParsedTransaction) (line : String) : List ParsedTransaction :=
  match transactionLineMatch line with
  | some (d, desc, a) =>
    acc ++ [{ postingDate := formatDate p d, description := goTrimSpace desc,
              amount := -(parseAmount a), transactionType := "fee",
              category := "fee", checkNumber := "", vendorHint := "TD Bank",
              referenceNumber := "" }]
  | none => acc

/-- `parseFees`: one record per matching line, negative amount, type `fee`,
category `fee`, vendor hint `TD Bank`. -/
def parseFees (p : TDBankParser) (sectionText : String) : List ParsedTransaction :=
  if goTrimSpace sectionText = "" then [] else
  (scanLines sectionText).foldl (feesStep p) []

/-- The six section parses concatenated in the order `Parse` appends them
(tdbank.go lines 92-114). -/
def parseAllSections (p : TDBankParser) (order : List (String × (String → Bool)))
    (sd sc sk sp sw sf : String) : List ParsedTransaction :=
  parseDeposits p order sd ++ parseCredits p order sc ++ parseChecks p sk ++
    parsePayments p order sp ++ parseWithdrawals p order sw ++ parseFees p sf

/-! ## Civil dates (model of the `time` package operations the matcher
uses: `time.Parse("2006-01-02", ...)`, `AddDate`, `Sub`, `Format`) -/

/-- Leap years of the proleptic Gregorian calendar. -/
def isLeapYear (y : Int) : Bool := y % 4 = 0 ∧ (y % 100 ≠ 0 ∨ y % 400 = 0)

/-- Days in a month. -/
def daysInMonth (y : Int) (m : Nat) : Nat :=
  if m = 2 then (if isLeapYear y then 29 else 28)
  else if m = 4 ∨ m = 6 ∨ m = 9 ∨ m = 11 then 30
  else 31

/-- Day number of a civil date (days since 1970-01-01, Hinnant's
`days_from_civil` in its floor-division form). -/
def civilToDay (y : Int) (m d : Nat) : Int :=
  let yS : Int := if m ≤ 2 then y - 1 else y
  let mp : Nat := if 2 < m then m - 3 else m + 9
  let doy : Int := ((153 * mp + 2) / 5 + d : Nat) - 1
  365 * yS + Int.fdiv yS 4 - Int.fdiv yS 100 + Int.fdiv yS 400 + doy - 719468

/-- Civil date of a day number (Hinnant's `civil_from_days`). -/
def dayToCivil (z0 : Int) : Int × Nat × Nat :=
  let z := z0 + 719468
  let era := Int.fdiv z 146097
  let doe := (z - era * 146097).toNat
  let yoe := (doe - doe / 1460 + doe / 36524 - doe / 146096) / 365
  let doy := doe - (365 * yoe + yoe / 4 - yoe / 100)
  let mp := (5 * doy + 2) / 153
  let d := doy - (153 * mp + 2) / 5 + 1
  let m := if mp < 10 then mp + 3 else mp - 9
  ((era * 400 + yoe : Int) + (if m ≤ 2 then 1 else 0), m, d)

/-- `time.Time.Format("2006-01-02")` of a day number. -/
def formatISOFromDay (z : Int) : String :=
  let c := dayToCivil z
  toString c.1 ++ "-" ++ pad2 c.2.1 ++ "-" ++ pad2 c.2.2

/-- `time.Parse("2006-01-02", s)`: four year digits, two month digits, two
day digits, month and day range-checked against the calendar. -/
def parseISODate (s : String) : Option (Int × Nat × Nat) :=
  match splitOnCharL '-' s.toList with
  | [ys, ms, ds] =>
    if ys.length = 4 ∧ ys.all isDigitA ∧ ms.length = 2 ∧ ms.all isDigitA ∧
        ds.length = 2 ∧ ds.all isDigitA then
      let y : Int := digitsToNat ys
      let m := digitsToNat ms
      let d := digitsToNat ds
      if 1 ≤ m ∧ m ≤ 12 ∧ 1 ≤ d ∧ d ≤ daysInMonth y m then some (y, m, d)
      else none
    else none
  | _ => none

/-- Day number of a date string, with `time.Parse`'s error ignored as the
matcher does (`txnDate, _ := time.Parse(...)`): a malformed string leaves
the zero time, January 1 of year 1. -/
def dayNumber (s : String) : Int :=
  let c := (parseISODate s).getD (1, 1, 1)
  civilToDay c.1 c.2.1 c.2.2

/-! ## Persisted rows and queries (schema.sql, internal/database).  The
timestamp audit columns (`created_at`, `matched_at`, ...), which no claim
concerns, are omitted from the row models. -/

/-- One row of `bank_transactions`. -/
structure BankTxnRow where
  id : Nat
  reconciliationId : Nat
  postingDate : String
  description : String
  amount : ℚ
  transactionType : String
  category : String
  checkNumber : String
  vendorHint : String
  referenceNumber : String
  matchedExpenseId : Option Nat
  matchStatus : String
  matchConfidence : String
deriving Repr, DecidableEq

/-- One row of `expenses`, joined with its vendor's name as the expense
queries return it. -/
structure Expense where
  id : Nat
  date : String
  vendorId : Nat
  vendorName : String
  amount : ℚ
  invoiceNumber : String
  status : String
  paymentType : String
  checkNumber : String
  datePaid : String
deriving Repr, DecidableEq

/-- One row of `bank_reconciliations`. -/
structure ReconRow where
  id : Nat
  statementDate : String
  startingBalance : ℚ
  endingBalance : ℚ
  status : String
  accountLastFour : String
  electronicDeposits : ℚ
  electronicPayments : ℚ
  checksPaid : ℚ
  serviceFees : ℚ
deriving Repr, DecidableEq

/-- The persisted store the reconciliation and parse-statement code touches. -/
structure DBState where
  recons : List ReconRow
  txns : List BankTxnRow
  expenses : List Expense
  jobs : List JobRow
deriving Repr, DecidableEq

/-- Byte-wise (ASCII) string order, as SQLite compares TEXT values. -/
def leListChar : List Char → List Char → Bool
  | [], _ => true
  | _ :: _, [] => false
  | a :: as, b :: bs => if a = b then leListChar as bs else decide (a < b)

/-- String order for `ORDER BY` over date strings. -/
def leString (a b : String) : Bool := leListChar a.toList b.toList

/-- Ordered insertion for a stable sort. -/
def insertLe {α : Type} (le : α → α → Bool) (a : α) : List α → List α
  | [] => [a]
  | b :: l => if le a b then a :: b :: l else b :: insertLe le a l

/-- Stable insertion sort modelling `ORDER BY` (stable on ties, which the
relations below report as `true`). -/
def sortLe {α : Type} (le : α → α → Bool) : List α → List α
  | [] => []
  | a :: l => insertLe le a (sortLe le l)

/-- `ORDER BY posting_date, id`. -/
def txnLe (a b : BankTxnRow) : Bool :=
  if a.postingDate = b.postingDate then a.id ≤ b.id
  else leString a.postingDate b.postingDate

/-- `GetReconciliation`. -/
def getReconciliation (db : DBState) (id : Nat) : Option ReconRow :=
  db.recons.find? (fun r => r.id = id)

/-- `GetBankTransactions`: every transaction of a reconciliation, ordered by
posting date then id. -/
def getBankTransactions (db : DBState) (reconId : Nat) : List BankTxnRow :=
  sortLe txnLe (db.txns.filter (fun t => t.reconciliationId = reconId))

/-- `GetUnmatchedBankTransactions`. -/
def getUnmatchedBankTransactions (db : DBState) (reconId : Nat) : List BankTxnRow :=
  sortLe txnLe (db.txns.filter
    (fun t => t.reconciliationId = reconId ∧ t.matchStatus = "unmatched"))

/-- `MatchBankTransaction`: link a transaction row to an expense with a
confidence tag. -/
def matchBankTransaction (db : DBState) (txnId expId : Nat) (confidence : String) :
    DBState :=
  { db with txns := db.txns.map (fun t =>
      if t.id = txnId then
        { t with matchedExpenseId := some expId, matchStatus := "matched",
                 matchConfidence := confidence }
      else t) }

/-- `isExpenseMatched` of the reconciliation package: some transaction of
the reconciliation already references the expense. -/
def isExpenseMatched (db : DBState) (reconId expId : Nat) : Bool :=
  (getBankTransactions db reconId).any (fun t => t.matchedExpenseId = some expId)

/-- `ListExpensesDateRange`: expenses with `date` inside the closed string
range, ordered by date descending. -/
def listExpensesDateRange (db : DBState) (startDate endDate : String) : List Expense :=
  sortLe (fun a b => leString b.date a.date)
    (db.expenses.filter (fun e => leString startDate e.date ∧ leString e.date endDate))

/-- `toLower` of the reconciliation package (byte-wise ASCII). -/
def toLowerGo (s : String) : String := String.mk (s.toList.map lowerA)

/-- `containsIgnoreCase` of the reconciliation package. -/
def containsIgnoreCase (haystack needle : String) : Bool :=
  0 < needle.length ∧ needle.length ≤ haystack.length ∧
    (haystack = needle ∨ containsS (toLowerGo haystack) (toLowerGo needle))

/-! ## Auto-matcher (unnamed reconciliation package file, `AutoMatch`) -/

/-- The inner candidate loop of `AutoMatch` for one transaction: candidates
in pool order; unpaid or already-matched candidates are skipped; on each
remaining candidate the three rules are tried in order — check number,
amount with date within three days, amount with vendor-hint containment —
and the first hit commits the match and stops. -/
def autoMatchTxn (db : DBState) (reconId : Nat) (txn : BankTxnRow) :
    List Expense → DBState × Bool
  | [] => (db, false)
  | exp :: rest =>
    if exp.status ≠ "paid" then autoMatchTxn db reconId txn rest
    else if isExpenseMatched db reconId exp.id then autoMatchTxn db reconId txn rest
    else if txn.checkNumber ≠ "" ∧ exp.checkNumber ≠ "" ∧
        txn.checkNumber = exp.checkNumber then
      (matchBankTransaction db txn.id exp.id "auto_exact", true)
    else if |txn.amount| = exp.amount ∧
        |dayNumber txn.postingDate - dayNumber exp.datePaid| ≤ 3 then
      (matchBankTransaction db txn.id exp.id "auto_fuzzy", true)
    else if |txn.amount| = exp.amount ∧ txn.vendorHint ≠ "" ∧
        containsIgnoreCase exp.vendorName txn.vendorHint then
      (matchBankTransaction db txn.id exp.id "auto_fuzzy", true)
    else autoMatchTxn db reconId txn rest

/-- The outer loop of `AutoMatch` over the unmatched-transaction snapshot:
non-negative amounts and fees are skipped; each remaining transaction runs
the candidate loop, counting the matches committed. -/
def autoMatchLoop (reconId : Nat) (expenses : List Expense)
    (st : DBState × Nat) (txns : List BankTxnRow) : DBState × Nat :=
  txns.foldl (fun st txn =>
    if 0 ≤ txn.amount then st
    else if txn.transactionType = "fee" then st
    else
      let r := autoMatchTxn st.1 reconId txn expenses
      (r.1, if r.2 then st.2 + 1 else st.2)) st

/-- `AutoMatch`: reads the reconciliation, derives the candidate window
(first of the statement month minus seven days through last moment of the
month plus seven days, whose date part is the first of the next month plus
six days), fetches the paid-expense pool and the unmatched transactions, and
runs the matching loops. -/
def autoMatch (db : DBState) (reconId : Nat) : Except String (DBState × Nat) :=
  match getReconciliation db reconId with
  | none => .error "reconciliation not found"
  | some recon =>
    match parseISODate recon.statementDate with
    | none => .error "parse statement date"
    | some (y, m, _) =>
      let firstOfMonth := civilToDay y m 1
      let firstOfNext := if m = 12 then civilToDay (y + 1) 1 1 else civilToDay y (m + 1) 1
      let startStr := formatISOFromDay (firstOfMonth - 7)
      let endStr := formatISOFromDay (firstOfNext + 6)
      let expenses := listExpensesDateRange db startStr endStr
      let txns := getUnmatchedBankTransactions db reconId
      .ok (autoMatchLoop reconId expenses (db, 0) txns)

/-! ## Manual type correction (bank_transactions.go lines 201-220 and its
review-handler caller) -/

/-- `UpdateBankTransactionTypeAndSign`: sets the type; deposits become
positive and matched with confidence `deposit`; otherwise the amount is made
positive or negative per the caller's flag and the match state is reset. -/
def updateBankTransactionTypeAndSign (db : DBState) (txnId : Nat) (txnType : String)
    (shouldBePositive : Bool) : DBState :=
  { db with txns := db.txns.map (fun t =>
      if t.id = txnId then
        if txnType = "deposit" then
          { t with transactionType := txnType, amount := |t.amount|,
                   matchStatus := "matched", matchConfidence := "deposit" }
        else if shouldBePositive then
          { t with transactionType := txnType, amount := |t.amount|,
                   matchStatus := "unmatched", matchedExpenseId := none,
                   matchConfidence := "" }
        else
          { t with transactionType := txnType, amount := -|t.amount|,
                   matchStatus := "unmatched", matchedExpenseId := none,
                   matchConfidence := "" }
      else t) }

/-- The review handler's sign derivation for a manual type correction:
positive for deposit, ach and refund; negative for everything else. -/
def shouldBePositiveFor (txnType : String) : Bool :=
  txnType = "deposit" || txnType = "ach" || txnType = "refund"

/-! ## Parse-statement job handler, extractor-failure path
(parse_statement.go lines 22-44) -/

/-- `UpdateReconciliationStatus`. -/
def updateReconciliationStatus (db : DBState) (id : Nat) (status : String) : DBState :=
  { db with recons := db.recons.map (fun r =>
      if r.id = id then { r with status := status } else r) }

/-- `UpdateJobProgress`. -/
def updateJobProgressDB (db : DBState) (id progress : Nat) : DBState :=
  { db with jobs := db.jobs.map (fun j =>
      if j.id = id then { j with progress := progress } else j) }

/-- `ParseStatementHandler` on the path where the Extractor fails (payload
already decoded to the reconciliation id): sets the document to `parsing`,
the job progress to 5, then `Parse` fails before touching anything else, the
document is reset to `pending` and the wrapped error is returned. -/
def parseStatementHandlerExtractFail (db : DBState) (reconId jobId : Nat)
    (errText : String) : DBState × Except String Unit :=
  let db1 := updateReconciliationStatus db reconId "parsing"
  let db2 := updateJobProgressDB db1 jobId 5
  let db3 := updateReconciliationStatus db2 reconId "pending"
  (db3, .error ("parse PDF: extract text: " ++ errText))

/-- The uniqueness invariant of one reconciliation: two rows of the
reconciliation at different table positions never reference the same matched
expense id. -/
def reconMatchUnique (db : DBState) (reconId : Nat) : Prop :=
  ∀ i : Nat, ∀ hi : i < db.txns.length, ∀ j : Nat, ∀ hj : j < db.txns.length, i ≠ j →
    (db.txns[i]).reconciliationId = reconId →
    (db.txns[j]).reconciliationId = reconId →
    (db.txns[i]).matchedExpenseId.isSome = true →
    (db.txns[i]).matchedExpenseId ≠ (db.txns[j]).matchedExpenseId

instance (db : DBState) (reconId : Nat) : Decidable (reconMatchUnique db reconId) := by
  unfold reconMatchUnique
  infer_instance

/-- The sign-type consistency mapping of spec section 3: deposit and credit
records carry non-negative amounts, check, debit, withdrawal and fee records
non-positive amounts. -/
def signConsistent (t : ParsedTransaction) : Prop :=
  ((t.transactionType = "deposit" ∨ t.transactionType = "credit") →
    0 ≤ t.amount) ∧
  ((t.transactionType = "check" ∨ t.transactionType = "debit" ∨
    t.transactionType = "withdrawal" ∨ t.transactionType = "fee") →
    t.amount ≤ 0)

/-! ### End of definitions; theorems follow. -/

/-- C8: for every record date splitting as two fields around the slash,
`formatDate` emits the month and day as given and the year demanded by the
spec's year-inference rule. -/
theorem c8_year_inference (p : TDBankParser) (mmdd ms ds : String)
    (hsplit : splitOnCharS '/' mmdd = [ms, ds]) :
    formatDate p mmdd =
      toString (specYearInference p.statementYear p.statementMonth (atoi ms)) ++
        "-" ++ pad2 (atoi ms) ++ "-" ++ pad2 (atoi ds) := by
  unfold formatDate specYearInference
  rw [hsplit]
  by_cases h1 : p.statementMonth = 12 ∧ atoi ms = 1
  · simp [h1, h1.1, h1.2]
  · by_cases h2 : p.statementMonth = 1 ∧ atoi ms = 12
    · have hne : ¬(atoi ms = 1 ∧ p.statementMonth = 12) := by
        rintro ⟨hm, hr⟩; exact absurd (h2.1.symm.trans hr) (by decide)
      simp [h1, h2, h2.1, h2.2, hne]
    · have hne : ¬(atoi ms = 1 ∧ p.statementMonth = 12) := fun h => h1 ⟨h.2, h.1⟩
      have hne2 : ¬(atoi ms = 12 ∧ p.statementMonth = 1) := fun h => h2 ⟨h.2, h.1⟩
      simp [h1, h2, hne, hne2]

/-- C8 witness: the spec's own examples, obtained through
`c8_year_inference` — period December 2025 with record date 01/02 posts as
2026-01-02, and period January 2026 with record date 12/30 posts as
2025-12-30. -/
theorem c8_year_inference_witness :
    formatDate ⟨2025, 12⟩ "01/02" = "2026-01-02" ∧
      formatDate ⟨2026, 1⟩ "12/30" = "2025-12-30" :=
  ⟨(c8_year_inference ⟨2025, 12⟩ "01/02" "01" "02" (by decide)).trans (by decide),
   (c8_year_inference ⟨2026, 1⟩ "12/30" "12" "30" (by decide)).trans (by decide)⟩

/-- A run against a terminal (non-pending) single-row table claims nothing
and changes nothing. -/
lemma workerRunErr_terminal (e : String) (now fuel : Nat) (r : JobRow)
    (h : r.status ≠ "pending") :
    workerRunErr e now fuel [r] = ([r], 0) := by
  cases fuel with
  | zero => rfl
  | succ n =>
    simp only [workerRunErr, claimNextJob, selectNextPending]
    rw [List.filter_cons_of_neg (by simpa using h)]
    rfl

/-- Core induction for the retry bound: from a pending single job with `a`
prior attempts, `a < max_attempts`, the erroring worker performs exactly
`max_attempts - a` further claims and leaves the job failed with the error
text as result. -/
lemma workerRunErr_single (e : String) (now : Nat) (j : JobRow)
    (a fuel : Nat) (sa : Option Nat)
    (ha : a < j.maxAttempts) (hfuel : j.maxAttempts - a ≤ fuel) :
    workerRunErr e now fuel [{ j with status := "pending", attempts := a, startedAt := sa }] =
      ([{ j with status := "failed", attempts := j.maxAttempts, startedAt := some now,
                 result := e, completedAt := some now }], j.maxAttempts - a) := by
  induction fuel generalizing a sa with
  | zero => omega
  | succ n ih =>
    by_cases hfin : j.maxAttempts ≤ a + 1
    · have hmax : j.maxAttempts = a + 1 := by omega
      simp [workerRunErr, claimNextJob, selectNextPending, minByCreated, updateJobRow,
        processJobErr, failJob, hfin, workerRunErr_terminal e now n, hmax]
    · simp [workerRunErr, claimNextJob, selectNextPending, minByCreated, updateJobRow,
        processJobErr, retryJob, hfin]
      rw [ih (a + 1) none (by omega) (by omega)]
      refine ⟨rfl, by omega⟩

/-- Partial runs: `f` iterations that all stay below the attempt bound leave
the single job pending with `f` more attempts recorded, one per claim. -/
lemma workerRunErr_single_partial (e : String) (now : Nat) (j : JobRow)
    (a f : Nat) (sa : Option Nat) (hf : a + f < j.maxAttempts) :
    workerRunErr e now f [{ j with status := "pending", attempts := a, startedAt := sa }] =
      ([{ j with status := "pending", attempts := a + f,
                 startedAt := if f = 0 then sa else none }], f) := by
  induction f generalizing a sa with
  | zero => rfl
  | succ n ih =>
    have hfin : ¬ j.maxAttempts ≤ a + 1 := by omega
    simp [workerRunErr, claimNextJob, selectNextPending, minByCreated, updateJobRow,
      processJobErr, retryJob, hfin]
    rw [ih (a + 1) none (by omega)]
    have hsum : a + 1 + n = a + (n + 1) := by omega
    cases n <;> simp [hsum]

/-- C5: a job whose handler errors on every invocation is claimed exactly
`max_attempts` times — each claim incrementing `attempts` — and every
non-final attempt returns it to pending; after the final attempt it is failed
with the handler's error text as its result. -/
theorem c5_job_retry_bound (j : JobRow) (e : String) (now fuel : Nat)
    (hpend : j.status = "pending") (h0 : j.attempts = 0)
    (hmax : 1 ≤ j.maxAttempts) (hfuel : j.maxAttempts ≤ fuel) :
    workerRunErr e now fuel [j] =
      ([{ j with status := "failed", attempts := j.maxAttempts, startedAt := some now,
                 result := e, completedAt := some now }], j.maxAttempts) ∧
    ∀ k, k < j.maxAttempts →
      workerRunErr e now k [j] =
        ([{ j with status := "pending", attempts := k,
                   startedAt := if k = 0 then j.startedAt else none }], k) := by
  have hj : j = { j with status := "pending", attempts := 0, startedAt := j.startedAt } := by
    cases j
    simp_all
  constructor
  · rw [hj, workerRunErr_single e now j 0 fuel j.startedAt (by omega) (by omega)]
    rfl
  · intro k hk
    rw [hj, workerRunErr_single_partial e now j 0 k j.startedAt (by omega)]
    simp

/-- C5 witness: a concrete pending job with `max_attempts = 3` is claimed
three times and ends failed with the handler's error text. -/
theorem c5_job_retry_bound_witness :
    workerRunErr "boom" 7 3 [⟨1, "parse_statement", "", "pending", 0, "", 0, 3, 5, none, none⟩] =
      ([⟨1, "parse_statement", "", "failed", 0, "boom", 3, 3, 5, some 7, some 7⟩], 3) ∧
    workerRunErr "boom" 7 2 [⟨1, "parse_statement", "", "pending", 0, "", 0, 3, 5, none, none⟩] =
      ([⟨1, "parse_statement", "", "pending", 0, "", 2, 3, 5, none, none⟩], 2) :=
  ⟨(c5_job_retry_bound ⟨1, "parse_statement", "", "pending", 0, "", 0, 3, 5, none, none⟩
      "boom" 7 3 rfl rfl (by decide) (by decide)).1,
   (c5_job_retry_bound ⟨1, "parse_statement", "", "pending", 0, "", 0, 3, 5, none, none⟩
      "boom" 7 3 rfl rfl (by decide) (by decide)).2 2 (by decide)⟩

/-- The running minimum never grows: starting from `some a` it ends at a row
created no later than `a`. -/
lemma foldlMin_le_acc (l : List JobRow) (a b : JobRow)
    (h : l.foldl minByCreated (some a) = some b) : b.createdAt ≤ a.createdAt := by
  induction l generalizing a with
  | nil => cases h; exact le_rfl
  | cons x xs ih =>
    simp only [List.foldl, minByCreated] at h
    by_cases hx : x.createdAt < a.createdAt
    · rw [if_pos hx] at h
      exact (ih x h).trans (le_of_lt hx)
    · rw [if_neg hx] at h
      exact ih a h

/-- The running minimum is the accumulator or some list element. -/
lemma foldlMin_mem (l : List JobRow) (acc : Option JobRow) (b : JobRow)
    (h : l.foldl minByCreated acc = some b) : acc = some b ∨ b ∈ l := by
  induction l generalizing acc with
  | nil => exact Or.inl h
  | cons x xs ih =>
    simp only [List.foldl] at h
    rcases ih (minByCreated acc x) h with h' | h'
    · rcases acc with _ | a
      · simp only [minByCreated] at h'
        cases h'
        exact Or.inr (List.mem_cons_self _ _)
      · simp only [minByCreated] at h'
        by_cases hx : x.createdAt < a.createdAt
        · rw [if_pos hx] at h'
          cases h'
          exact Or.inr (List.mem_cons_self _ _)
        · rw [if_neg hx] at h'
          exact Or.inl h'
    · exact Or.inr (List.mem_cons.mpr (Or.inr h'))

/-- The running minimum is created no later than every list element. -/
lemma foldlMin_min (l : List JobRow) (acc : Option JobRow) (b : JobRow)
    (h : l.foldl minByCreated acc = some b) :
    ∀ r ∈ l, b.createdAt ≤ r.createdAt := by
  induction l generalizing acc with
  | nil => simp
  | cons x xs ih =>
    intro r hr
    simp only [List.foldl] at h
    rcases List.mem_cons.mp hr with rfl | hr'
    · have hc : ∃ c, minByCreated acc r = some c ∧ c.createdAt ≤ r.createdAt := by
        rcases acc with _ | a
        · exact ⟨r, rfl, le_rfl⟩
        · simp only [minByCreated]
          by_cases hx : r.createdAt < a.createdAt
          · exact ⟨r, by rw [if_pos hx], le_rfl⟩
          · exact ⟨a, by rw [if_neg hx], not_lt.mp hx⟩
      obtain ⟨c, hceq, hcle⟩ := hc
      rw [hceq] at h
      exact (foldlMin_le_acc xs c b h).trans hcle
    · exact ih (minByCreated acc x) h r hr'

/-- A queue without pending rows yields the explicit empty result and is left
unchanged. -/
lemma claimNextJob_no_pending (now : Nat) (jobs : List JobRow)
    (h : ∀ r ∈ jobs, r.status ≠ "pending") :
    claimNextJob now jobs = (none, jobs) := by
  have hf : jobs.filter (fun j => j.status = "pending") = [] := by
    rw [List.filter_eq_nil_iff]
    intro a ha
    simpa using h a ha
  simp [claimNextJob, selectNextPending, hf]

/-- Claim attempts against a queue without pending rows all return the
explicit empty result. -/
lemma claimSeq_no_pending (now n : Nat) (jobs : List JobRow)
    (h : ∀ r ∈ jobs, r.status ≠ "pending") :
    claimSeq now n jobs = (List.replicate n none, jobs) := by
  induction n with
  | zero => rfl
  | succ m ih =>
    simp [claimSeq, claimNextJob_no_pending now jobs h, ih, List.replicate_succ]

/-- C10: claiming is one atomic read-modify-write.  For a queue holding
exactly one pending job, any number of claim transactions — in whatever
order they serialise — produce exactly one successful claimant, who receives
that job transitioned to running with `attempts` incremented and the start
time recorded; a queue without pending jobs yields the explicit `none`
result, not an error; and every successful claim returns an oldest pending
row of the queue it ran against. -/
theorem c10_claim_exclusivity (now n : Nat) (l₁ l₂ : List JobRow) (j : JobRow)
    (hj : j.status = "pending")
    (hother : ∀ r ∈ l₁ ++ l₂, r.status ≠ "pending") (hn : 1 ≤ n) :
    (claimSeq now n (l₁ ++ j :: l₂)).1 =
      some (claimMark now j) :: List.replicate (n - 1) none ∧
    (∀ jobs : List JobRow, (∀ r ∈ jobs, r.status ≠ "pending") →
      claimNextJob now jobs = (none, jobs)) ∧
    (∀ jobs : List JobRow, ∀ r : JobRow, ∀ rest : List JobRow,
      claimNextJob now jobs = (some r, rest) →
      ∃ j₀ ∈ jobs, j₀.status = "pending" ∧
        (∀ q ∈ jobs, q.status = "pending" → j₀.createdAt ≤ q.createdAt) ∧
        r = claimMark now j₀ ∧
        rest = updateJobRow jobs j₀.id (claimMark now)) := by
  refine ⟨?_, fun jobs h => claimNextJob_no_pending now jobs h, ?_⟩
  · obtain ⟨m, rfl⟩ : ∃ m, n = m + 1 := ⟨n - 1, by omega⟩
    have hf : (l₁ ++ j :: l₂).filter (fun q => q.status = "pending") = [j] := by
      rw [List.filter_append, List.filter_cons_of_pos (by simpa using hj),
        List.filter_eq_nil_iff.mpr (fun a ha => by
          simpa using hother a (List.mem_append_left _ ha)),
        List.filter_eq_nil_iff.mpr (fun a ha => by
          simpa using hother a (List.mem_append_right _ ha))]
      rfl
    have hclaim : claimNextJob now (l₁ ++ j :: l₂) =
        (some (claimMark now j), updateJobRow (l₁ ++ j :: l₂) j.id (claimMark now)) := by
      simp only [claimNextJob, selectNextPending]
      rw [hf]
      rfl
    have hnone : ∀ r ∈ updateJobRow (l₁ ++ j :: l₂) j.id (claimMark now),
        r.status ≠ "pending" := by
      intro r hr
      obtain ⟨q, hq, hqr⟩ := List.mem_map.mp hr
      by_cases hid : q.id = j.id
      · rw [if_pos hid] at hqr
        rw [← hqr]
        intro hcon
        exact absurd hcon (by simp [claimMark])
      · rw [if_neg hid] at hqr
        rcases List.mem_append.mp hq with h' | h'
        · exact hqr ▸ hother q (List.mem_append_left _ h')
        · rcases List.mem_cons.mp h' with rfl | h''
          · exact absurd rfl hid
          · exact hqr ▸ hother q (List.mem_append_right _ h'')
    simp only [claimSeq, hclaim, claimSeq_no_pending now m _ hnone]
    simp
  · intro jobs r rest hcr
    unfold claimNextJob at hcr
    rcases hsel : selectNextPending jobs with _ | j₀
    · rw [hsel] at hcr
      simp at hcr
    · rw [hsel] at hcr
      have hr : r = claimMark now j₀ ∧ rest = updateJobRow jobs j₀.id (claimMark now) := by
        constructor
        · have := congrArg Prod.fst hcr
          simpa [claimMark] using this.symm
        · have := congrArg Prod.snd hcr
          simpa [claimMark] using this.symm
      obtain ⟨hmem, hpend⟩ : j₀ ∈ jobs ∧ j₀.status = "pending" := by
        unfold selectNextPending at hsel
        rcases foldlMin_mem _ _ _ hsel with h' | h'
        · cases h'
        · have := List.mem_filter.mp h'
          exact ⟨this.1, by simpa using this.2⟩
      refine ⟨j₀, hmem, hpend, ?_, hr.1, hr.2⟩
      intro q hq hqpend
      unfold selectNextPending at hsel
      exact foldlMin_min _ _ _ hsel q (List.mem_filter.mpr ⟨hq, by simpa using hqpend⟩)

/-- C10 witness: a three-row queue whose only pending job is claimed by the
first of two claimants, the second receiving the explicit empty result; an
empty queue also answers `none`. -/
theorem c10_claim_exclusivity_witness :
    (claimSeq 9 2 [⟨1, "t", "", "completed", 100, "", 1, 3, 1, none, none⟩,
        ⟨2, "t", "", "pending", 0, "", 0, 3, 2, none, none⟩,
        ⟨3, "t", "", "failed", 0, "x", 3, 3, 3, none, some 8⟩]).1 =
      [some ⟨2, "t", "", "running", 0, "", 1, 3, 2, some 9, none⟩, none] ∧
    claimNextJob 9 ([] : List JobRow) = (none, []) :=
  ⟨((c10_claim_exclusivity 9 2
      [⟨1, "t", "", "completed", 100, "", 1, 3, 1, none, none⟩]
      [⟨3, "t", "", "failed", 0, "x", 3, 3, 3, none, some 8⟩]
      ⟨2, "t", "", "pending", 0, "", 0, 3, 2, none, none⟩
      rfl (by decide) (by decide)).1.trans (by decide)),
   (c10_claim_exclusivity 9 2
      [⟨1, "t", "", "completed", 100, "", 1, 3, 1, none, none⟩]
      [⟨3, "t", "", "failed", 0, "x", 3, 3, 3, none, some 8⟩]
      ⟨2, "t", "", "pending", 0, "", 0, 3, 2, none, none⟩
      rfl (by decide) (by decide)).2.1 [] (by simp)⟩


/-! ### Auto-matcher: uniqueness (C7) -/

/-- Membership through ordered insertion. -/
lemma mem_insertLe {α : Type} (le : α → α → Bool) (x a : α) (l : List α) :
    a ∈ insertLe le x l ↔ a = x ∨ a ∈ l := by
  induction l with
  | nil => simp [insertLe]
  | cons b t ih =>
    simp only [insertLe]
    by_cases h : le x b = true
    · simp [h]
    · simp only [if_neg h, List.mem_cons, ih]
      tauto

/-- Membership through the stable sort. -/
lemma mem_sortLe {α : Type} (le : α → α → Bool) (a : α) (l : List α) :
    a ∈ sortLe le l ↔ a ∈ l := by
  induction l with
  | nil => simp [sortLe]
  | cons b t ih => simp [sortLe, mem_insertLe, ih]

/-- What a negative `isExpenseMatched` answer means: no row of the
reconciliation references the expense. -/
lemma isExpenseMatched_eq_false (db : DBState) (reconId expId : Nat)
    (h : isExpenseMatched db reconId expId = false) :
    ∀ t ∈ db.txns, t.reconciliationId = reconId → t.matchedExpenseId ≠ some expId := by
  intro t ht hrec
  unfold isExpenseMatched getBankTransactions at h
  rw [List.any_eq_false] at h
  have hmem : t ∈ sortLe txnLe (db.txns.filter (fun q => q.reconciliationId = reconId)) := by
    rw [mem_sortLe, List.mem_filter]
    exact ⟨ht, by simpa using hrec⟩
  simpa using h t hmem

/-- `MatchBankTransaction` leaves the id column unchanged. -/
lemma matchBankTransaction_ids (db : DBState) (txnId expId : Nat) (conf : String) :
    (matchBankTransaction db txnId expId conf).txns.map (fun t => t.id) =
      db.txns.map (fun t => t.id) := by
  unfold matchBankTransaction
  rw [List.map_map]
  refine List.map_congr_left (fun t _ => ?_)
  by_cases h : t.id = txnId <;> simp [h]

/-- One committed match preserves the uniqueness invariant, provided the
expense was free in the reconciliation when it fired and row ids are
unique. -/
lemma matchBankTransaction_unique (db : DBState) (reconId txnId expId : Nat)
    (conf : String)
    (hids : (db.txns.map (fun t => t.id)).Nodup)
    (hfree : isExpenseMatched db reconId expId = false)
    (huniq : reconMatchUnique db reconId) :
    reconMatchUnique (matchBankTransaction db txnId expId conf) reconId := by
  have hfree' := isExpenseMatched_eq_false db reconId expId hfree
  intro i hi j hj hne hri hrj hsome
  have hi' : i < db.txns.length := by simpa [matchBankTransaction] using hi
  have hj' : j < db.txns.length := by simpa [matchBankTransaction] using hj
  have hrowi : (matchBankTransaction db txnId expId conf).txns[i] =
      (if (db.txns[i]).id = txnId then
        { db.txns[i] with matchedExpenseId := some expId, matchStatus := "matched",
                          matchConfidence := conf }
       else db.txns[i]) := by
    simp [matchBankTransaction]
  have hrowj : (matchBankTransaction db txnId expId conf).txns[j] =
      (if (db.txns[j]).id = txnId then
        { db.txns[j] with matchedExpenseId := some expId, matchStatus := "matched",
                          matchConfidence := conf }
       else db.txns[j]) := by
    simp [matchBankTransaction]
  have hreci : (db.txns[i]).reconciliationId = reconId := by
    rw [hrowi] at hri
    by_cases h : (db.txns[i]).id = txnId
    · simpa [h] using hri
    · simpa [h] using hri
  have hrecj : (db.txns[j]).reconciliationId = reconId := by
    rw [hrowj] at hrj
    by_cases h : (db.txns[j]).id = txnId
    · simpa [h] using hrj
    · simpa [h] using hrj
  by_cases hidi : (db.txns[i]).id = txnId <;> by_cases hidj : (db.txns[j]).id = txnId
  · exfalso
    have : (db.txns.map (fun t => t.id)).get ⟨i, by simpa using hi'⟩ =
        (db.txns.map (fun t => t.id)).get ⟨j, by simpa using hj'⟩ := by
      simp [hidi, hidj]
    exact hne (hids.getElem_inj_iff.mp this)
  · rw [hrowi, if_pos hidi, hrowj, if_neg hidj]
    intro hcon
    have : (db.txns[j]).matchedExpenseId = some expId := by
      simpa using hcon.symm
    exact hfree' (db.txns[j]) (db.txns.getElem_mem hj') hrecj this
  · rw [hrowi, if_neg hidi, hrowj, if_pos hidj]
    intro hcon
    have : (db.txns[i]).matchedExpenseId = some expId := by simpa using hcon
    exact hfree' (db.txns[i]) (db.txns.getElem_mem hi') hreci this
  · rw [hrowi, if_neg hidi, hrowj, if_neg hidj]
    rw [hrowi, if_neg hidi] at hsome
    exact huniq i hi' j hj' hne hreci hrecj hsome

/-- The candidate loop preserves id-uniqueness of the table and the
matcher's uniqueness invariant. -/
lemma autoMatchTxn_unique (reconId : Nat) (txn : BankTxnRow) (es : List Expense)
    (db : DBState)
    (hids : (db.txns.map (fun t => t.id)).Nodup)
    (huniq : reconMatchUnique db reconId) :
    ((autoMatchTxn db reconId txn es).1.txns.map (fun t => t.id)).Nodup ∧
      reconMatchUnique (autoMatchTxn db reconId txn es).1 reconId := by
  induction es with
  | nil => exact ⟨hids, huniq⟩
  | cons exp rest ih =>
    unfold autoMatchTxn
    by_cases h1 : exp.status ≠ "paid"
    · rw [if_pos h1]
      exact ih
    · rw [if_neg h1]
      by_cases h2 : isExpenseMatched db reconId exp.id = true
      · rw [if_pos h2]
        exact ih
      · rw [if_neg h2]
        have hfree : isExpenseMatched db reconId exp.id = false := by simpa using h2
        by_cases h3 : txn.checkNumber ≠ "" ∧ exp.checkNumber ≠ "" ∧
            txn.checkNumber = exp.checkNumber
        · rw [if_pos h3]
          exact ⟨by rw [matchBankTransaction_ids]; exact hids,
            matchBankTransaction_unique db reconId txn.id exp.id "auto_exact"
              hids hfree huniq⟩
        · rw [if_neg h3]
          by_cases h4 : |txn.amount| = exp.amount ∧
              |dayNumber txn.postingDate - dayNumber exp.datePaid| ≤ 3
          · rw [if_pos h4]
            exact ⟨by rw [matchBankTransaction_ids]; exact hids,
              matchBankTransaction_unique db reconId txn.id exp.id "auto_fuzzy"
                hids hfree huniq⟩
          · rw [if_neg h4]
            by_cases h5 : |txn.amount| = exp.amount ∧ txn.vendorHint ≠ "" ∧
                containsIgnoreCase exp.vendorName txn.vendorHint = true
            · rw [if_pos h5]
              exact ⟨by rw [matchBankTransaction_ids]; exact hids,
                matchBankTransaction_unique db reconId txn.id exp.id "auto_fuzzy"
                  hids hfree huniq⟩
            · rw [if_neg h5]
              exact ih

/-- The transaction loop preserves both invariants. -/
lemma autoMatchLoop_unique (reconId : Nat) (expenses : List Expense)
    (txns : List BankTxnRow) :
    ∀ st : DBState × Nat,
      (st.1.txns.map (fun t => t.id)).Nodup → reconMatchUnique st.1 reconId →
      ((autoMatchLoop reconId expenses st txns).1.txns.map (fun t => t.id)).Nodup ∧
        reconMatchUnique (autoMatchLoop reconId expenses st txns).1 reconId := by
  induction txns with
  | nil => exact fun st hids huniq => ⟨hids, huniq⟩
  | cons txn rest ih =>
    intro st hids huniq
    unfold autoMatchLoop
    simp only [List.foldl_cons]
    by_cases h1 : (0 : ℚ) ≤ txn.amount
    · rw [if_pos h1]
      exact ih st hids huniq
    · rw [if_neg h1]
      by_cases h2 : txn.transactionType = "fee"
      · rw [if_pos h2]
        exact ih st hids huniq
      · rw [if_neg h2]
        have hstep := autoMatchTxn_unique reconId txn expenses st.1 hids huniq
        exact ih _ hstep.1 hstep.2

/-- C7: an `AutoMatch` run preserves matcher uniqueness — since a candidate
already referenced by any row of the reconciliation is skipped and each
committed match re-checks the live table, a table whose rows (with unique
primary-key ids) referenced pairwise distinct expenses still does so after
the run. -/
theorem c7_matcher_uniqueness (db : DBState) (reconId : Nat) (db2 : DBState) (n : Nat)
    (hrun : autoMatch db reconId = .ok (db2, n))
    (hids : (db.txns.map (fun t => t.id)).Nodup)
    (huniq : reconMatchUnique db reconId) :
    reconMatchUnique db2 reconId := by
  unfold autoMatch at hrun
  rcases hg : getReconciliation db reconId with _ | recon <;> rw [hg] at hrun
  · simp at hrun
  · rcases hp : parseISODate recon.statementDate with _ | ymd <;>
      simp only [hp] at hrun
    · simp at hrun
    · obtain ⟨y, m, d⟩ := ymd
      simp only [Except.ok.injEq, Prod.mk.injEq] at hrun
      have hout := autoMatchLoop_unique reconId
        (listExpensesDateRange db (formatISOFromDay (civilToDay y m 1 - 7))
          (formatISOFromDay ((if m = 12 then civilToDay (y + 1) 1 1
            else civilToDay y (m + 1) 1) + 6)))
        (getUnmatchedBankTransactions db reconId) (db, 0) hids huniq
      rw [hrun] at hout
      exact hout.2


/-- C7 witness: two transactions both eligible for the single paid expense;
after the run the first references it, the second stays unmatched, and the
uniqueness invariant holds, via `c7_matcher_uniqueness` at this input. -/
theorem c7_matcher_uniqueness_witness :
    reconMatchUnique
      ⟨[⟨1, "2025-12-01", 0, 0, "parsed", "1234", 0, 0, 0, 0⟩],
       [⟨10, 1, "2025-12-05", "POS A", -100, "debit", "expense", "", "", "",
          some 1, "matched", "auto_fuzzy"⟩,
        ⟨11, 1, "2025-12-06", "POS B", -100, "debit", "expense", "", "", "",
          none, "unmatched", ""⟩],
       [⟨1, "2025-12-10", 5, "V1", 100, "", "paid", "debit", "", "2025-12-05"⟩],
       []⟩ 1 :=
  c7_matcher_uniqueness
    ⟨[⟨1, "2025-12-01", 0, 0, "parsed", "1234", 0, 0, 0, 0⟩],
     [⟨10, 1, "2025-12-05", "POS A", -100, "debit", "expense", "", "", "",
        none, "unmatched", ""⟩,
      ⟨11, 1, "2025-12-06", "POS B", -100, "debit", "expense", "", "", "",
        none, "unmatched", ""⟩],
     [⟨1, "2025-12-10", 5, "V1", 100, "", "paid", "debit", "", "2025-12-05"⟩],
     []⟩ 1
    ⟨[⟨1, "2025-12-01", 0, 0, "parsed", "1234", 0, 0, 0, 0⟩],
     [⟨10, 1, "2025-12-05", "POS A", -100, "debit", "expense", "", "", "",
        some 1, "matched", "auto_fuzzy"⟩,
      ⟨11, 1, "2025-12-06", "POS B", -100, "debit", "expense", "", "", "",
        none, "unmatched", ""⟩],
     [⟨1, "2025-12-10", 5, "V1", 100, "", "paid", "debit", "", "2025-12-05"⟩],
     []⟩ 1
    rfl (by decide) (by decide)

/-! ### Auto-matcher: rule precedence (C1) -/

/-- C1 counterexample: a record holding check number 2730 is eligible for a
check-number match against the pool candidate with id 2 (check number 2730,
paid) and for an exact-amount-plus-date match against the candidate with
id 1 (amount 100, one day apart), which the descending-date pool order
places first.  `AutoMatch` commits the record to candidate 1 with confidence
`auto_fuzzy` — not via the check-number rule with `auto_exact` as the claim
demands — because the code iterates candidate-major, not rule-major. -/
theorem c1_counterexample :
    ((autoMatch
        ⟨[⟨1, "2025-12-01", 0, 0, "parsed", "1234", 0, 0, 0, 0⟩],
         [⟨10, 1, "2025-12-05", "CHECK X", -100, "debit", "expense", "2730", "", "",
            none, "unmatched", ""⟩],
         [⟨1, "2025-12-20", 5, "V1", 100, "", "paid", "check", "", "2025-12-06"⟩,
          ⟨2, "2025-12-10", 6, "V2", 999, "", "paid", "check", "2730", "2025-12-05"⟩],
         []⟩ 1).map
      (fun r => r.1.txns.map (fun t => (t.matchedExpenseId, t.matchConfidence)))) =
      Except.ok [(some 1, "auto_fuzzy")] ∧
    |dayNumber "2025-12-05" - dayNumber "2025-12-06"| ≤ 3 ∧
    ("auto_fuzzy" : String) ≠ "auto_exact" := by
  refine ⟨rfl, by decide, by decide⟩

/-- C1 as amended: for each record the candidates are tried in pool order
and, on each candidate, the three rules in fixed precedence; the first
satisfied candidate-rule pair wins.  If no earlier candidate fires any rule
and the first firing candidate satisfies the check-number rule, the record
is committed to that candidate with confidence `auto_exact` — even when that
same candidate also satisfies the amount-plus-date rule. -/
theorem c1_candidate_major_precedence (db : DBState) (reconId : Nat)
    (txn : BankTxnRow) (pre post : List Expense) (e : Expense)
    (hpre : ∀ e2 ∈ pre, e2.status ≠ "paid" ∨ isExpenseMatched db reconId e2.id = true ∨
      (¬(txn.checkNumber ≠ "" ∧ e2.checkNumber ≠ "" ∧ txn.checkNumber = e2.checkNumber) ∧
       ¬(|txn.amount| = e2.amount ∧
          |dayNumber txn.postingDate - dayNumber e2.datePaid| ≤ 3) ∧
       ¬(|txn.amount| = e2.amount ∧ txn.vendorHint ≠ "" ∧
          containsIgnoreCase e2.vendorName txn.vendorHint = true)))
    (hpaid : e.status = "paid")
    (hfree : isExpenseMatched db reconId e.id = false)
    (hr1 : txn.checkNumber ≠ "" ∧ e.checkNumber ≠ "" ∧ txn.checkNumber = e.checkNumber) :
    autoMatchTxn db reconId txn (pre ++ e :: post) =
      (matchBankTransaction db txn.id e.id "auto_exact", true) := by
  induction pre with
  | nil =>
    simp only [List.nil_append]
    unfold autoMatchTxn
    rw [if_neg (by simp [hpaid]), if_neg (by simp [hfree]), if_pos hr1]
  | cons e2 rest ih =>
    have hrest : ∀ x ∈ rest, x.status ≠ "paid" ∨ isExpenseMatched db reconId x.id = true ∨
        (¬(txn.checkNumber ≠ "" ∧ x.checkNumber ≠ "" ∧ txn.checkNumber = x.checkNumber) ∧
         ¬(|txn.amount| = x.amount ∧
            |dayNumber txn.postingDate - dayNumber x.datePaid| ≤ 3) ∧
         ¬(|txn.amount| = x.amount ∧ txn.vendorHint ≠ "" ∧
            containsIgnoreCase x.vendorName txn.vendorHint = true)) :=
      fun x hx => hpre x (List.mem_cons.mpr (Or.inr hx))
    have hhead := hpre e2 (List.mem_cons_self _ _)
    show autoMatchTxn db reconId txn (e2 :: (rest ++ e :: post)) = _
    unfold autoMatchTxn
    by_cases h1 : e2.status ≠ "paid"
    · rw [if_pos h1]
      exact ih hrest
    · rw [if_neg h1]
      by_cases h2 : isExpenseMatched db reconId e2.id = true
      · rw [if_pos h2]
        exact ih hrest
      · rw [if_neg h2]
        have h3 : ¬(txn.checkNumber ≠ "" ∧ e2.checkNumber ≠ "" ∧
              txn.checkNumber = e2.checkNumber) ∧
            ¬(|txn.amount| = e2.amount ∧
              |dayNumber txn.postingDate - dayNumber e2.datePaid| ≤ 3) ∧
            ¬(|txn.amount| = e2.amount ∧ txn.vendorHint ≠ "" ∧
              containsIgnoreCase e2.vendorName txn.vendorHint = true) := by
          rcases hhead with h | h | h
          · exact absurd h h1
          · exact absurd h h2
          · exact h
        rw [if_neg h3.1, if_neg h3.2.1, if_neg h3.2.2]
        exact ih hrest

/-- C1 amended-claim witness: one unpaid candidate precedes a candidate that
satisfies both the check-number rule and the amount-plus-date rule; the
record is committed via the check-number rule with `auto_exact`, by
`c1_candidate_major_precedence` at this input. -/
theorem c1_candidate_major_precedence_witness :
    autoMatchTxn
      ⟨[], [⟨10, 1, "2025-12-05", "CHECK X", -100, "debit", "expense", "2730", "", "",
          none, "unmatched", ""⟩], [], []⟩ 1
      ⟨10, 1, "2025-12-05", "CHECK X", -100, "debit", "expense", "2730", "", "",
        none, "unmatched", ""⟩
      ([⟨3, "2025-12-19", 7, "V0", 100, "", "not_paid", "check", "2730", "2025-12-05"⟩] ++
        ⟨2, "2025-12-10", 6, "V2", 100, "", "paid", "check", "2730", "2025-12-05"⟩ :: []) =
      (matchBankTransaction
        ⟨[], [⟨10, 1, "2025-12-05", "CHECK X", -100, "debit", "expense", "2730", "", "",
            none, "unmatched", ""⟩], [], []⟩ 10 2 "auto_exact", true) :=
  c1_candidate_major_precedence
    ⟨[], [⟨10, 1, "2025-12-05", "CHECK X", -100, "debit", "expense", "2730", "", "",
        none, "unmatched", ""⟩], [], []⟩ 1
    ⟨10, 1, "2025-12-05", "CHECK X", -100, "debit", "expense", "2730", "", "",
      none, "unmatched", ""⟩
    [⟨3, "2025-12-19", 7, "V0", 100, "", "not_paid", "check", "2730", "2025-12-05"⟩] []
    ⟨2, "2025-12-10", 6, "V2", 100, "", "paid", "check", "2730", "2025-12-05"⟩
    (by decide) (by decide) (by decide) (by decide)


/-! ### Parse-statement handler: extractor failure (C6) -/

/-- C6 counterexample: a document whose prior status is `parsed` (a reparse)
hit by an extractor failure ends with status `pending`, not its prior
status — the handler sets `parsing` on entry and resets to `pending` on the
parse error, never restoring what was there before. -/
theorem c6_counterexample :
    ((parseStatementHandlerExtractFail
        ⟨[⟨1, "2025-12-01", 0, 0, "parsed", "1234", 0, 0, 0, 0⟩],
         [⟨10, 1, "2025-12-05", "OLD ROW", -100, "debit", "expense", "", "", "",
            none, "unmatched", ""⟩], [],
         [⟨5, "parse_statement", "", "running", 0, "", 1, 3, 1, some 2, none⟩]⟩
        1 5 "boom").1.recons.map (fun r => r.status)) = ["pending"] ∧
    ("pending" : String) ≠ "parsed" :=
  ⟨rfl, by decide⟩

/-- C6 as amended: when the Extractor fails, the handler returns the wrapped
error, the document's existing transaction records are neither deleted nor
replaced, the expense ledger is untouched, and every reconciliation field
except the status — header fields and declared subtotals included — is
unchanged; the document's status however is reset to `pending` (not restored
to its prior value), and the job's progress has been set to 5. -/
theorem c6_extract_failure_state (db : DBState) (reconId jobId : Nat) (e : String) :
    (parseStatementHandlerExtractFail db reconId jobId e).2 =
      .error ("parse PDF: extract text: " ++ e) ∧
    (parseStatementHandlerExtractFail db reconId jobId e).1.txns = db.txns ∧
    (parseStatementHandlerExtractFail db reconId jobId e).1.expenses = db.expenses ∧
    (parseStatementHandlerExtractFail db reconId jobId e).1.recons =
      db.recons.map (fun r => if r.id = reconId then { r with status := "pending" } else r) ∧
    (parseStatementHandlerExtractFail db reconId jobId e).1.jobs =
      db.jobs.map (fun j => if j.id = jobId then { j with progress := 5 } else j) := by
  refine ⟨rfl, rfl, rfl, ?_, ?_⟩
  · show (db.recons.map (fun r => if r.id = reconId then { r with status := "parsing" } else r)).map
        (fun r => if r.id = reconId then { r with status := "pending" } else r) = _
    rw [List.map_map]
    refine List.map_congr_left (fun r _ => ?_)
    by_cases h : r.id = reconId <;> simp [h]
  · rfl


/-! ### Parser determinism and the vendor map (C3) -/

/-- C3, the code-side fact: the vendor lookup iterates a Go `map`, whose
iteration order is unspecified and randomised per run.  For the description
`JETRO CLOVER` — which matches both the Jetro and the Clover patterns — the
hint returned depends on that order: the written order yields `Jetro`, a
permutation with the Clover entry first (a legitimate iteration order of the
same map) yields `Clover`; a payment record with that description therefore
carries a vendor hint that can differ between two runs on identical input
text.  Determinism fails at the vendor-pattern lookup, exactly the
associative-structure hazard §9 of the spec flags. -/
theorem c3_vendor_map_iteration_nondeterminism :
    List.Perm
      (("Clover", reMatches (rmStrCI "CLOVER")) ::
        (vendorPatternsList.take 11 ++ vendorPatternsList.drop 12))
      vendorPatternsList ∧
    extractVendorHint vendorPatternsList "JETRO CLOVER" = "Jetro" ∧
    extractVendorHint
      (("Clover", reMatches (rmStrCI "CLOVER")) ::
        (vendorPatternsList.take 11 ++ vendorPatternsList.drop 12))
      "JETRO CLOVER" = "Clover" ∧
    (parsePayments ⟨2025, 12⟩ vendorPatternsList
        "12/02  JETRO CLOVER  100.00\n").map (fun t => t.vendorHint) = ["Jetro"] ∧
    (parsePayments ⟨2025, 12⟩
        (("Clover", reMatches (rmStrCI "CLOVER")) ::
          (vendorPatternsList.take 11 ++ vendorPatternsList.drop 12))
        "12/02  JETRO CLOVER  100.00\n").map (fun t => t.vendorHint) = ["Clover"] := by
  refine ⟨?_, rfl, rfl, rfl, rfl⟩
  have h : vendorPatternsList =
      vendorPatternsList.take 11 ++
        ("Clover", reMatches (rmStrCI "CLOVER")) :: vendorPatternsList.drop 12 := rfl
  conv_rhs => rw [h]
  exact List.perm_middle.symm


/-! ### Multi-line record assembly (C2) -/

/-- C2 counterexample: an identical section body — a dated line plus an
indented line of exactly sixteen digits — keeps the digit run in the record
description when parsed as an other-withdrawals section, while the
electronic-payments parser drops it.  The card-number filter exists only in
`parsePayments`; the claim's "dropped in both sections" is false. -/
theorem c2_counterexample :
    (parseWithdrawals ⟨2025, 12⟩ vendorPatternsList
        "12/02  WD FOO  100.00\n      1234567890123456\n").map
      (fun t => t.description) = ["WD FOO 1234567890123456"] ∧
    is16Digits "1234567890123456" = true ∧
    (parsePayments ⟨2025, 12⟩ vendorPatternsList
        "12/02  WD FOO  100.00\n      1234567890123456\n").map
      (fun t => t.description) = ["WD FOO"] :=
  ⟨rfl, rfl, rfl⟩

/-- C2 as amended, stated on the two scanner loop bodies: in both sections a
dated line (one matching the transaction-line pattern) closes any open
record and opens a new one carrying the line's date, trimmed description and
negated amount; a continuation line (matching the indentation pattern) with
a record open is appended to that record's description after trimming —
except that the electronic-payments loop drops it when it consists of
exactly sixteen digits, a filter the other-withdrawals loop does not have. -/
theorem c2_multiline_assembly (p : TDBankParser)
    (order : List (String × (String → Bool)))
    (st : List ParsedTransaction × Option ParsedTransaction) (line : String) :
    (∀ d desc a, transactionLineMatch line = some (d, desc, a) →
      paymentsStep p order st line =
        ((match st.2 with
          | some cur => st.1 ++ [finalizeTransaction order cur]
          | none => st.1),
         some { postingDate := formatDate p d, description := goTrimSpace desc,
                amount := -(parseAmount a), transactionType := "debit",
                category := "", checkNumber := "", vendorHint := "",
                referenceNumber := "" }) ∧
      withdrawalsStep p order st line =
        ((match st.2 with
          | some cur => st.1 ++ [finalizeTransaction order cur]
          | none => st.1),
         some { postingDate := formatDate p d, description := goTrimSpace desc,
                amount := -(parseAmount a), transactionType := "withdrawal",
                category := "", checkNumber := "", vendorHint := "",
                referenceNumber := "" })) ∧
    (∀ cont cur, transactionLineMatch line = none →
      continuationLineMatch line = some cont → st.2 = some cur →
      paymentsStep p order st line =
        (if is16Digits (goTrimSpace cont) then st
         else (st.1, some { cur with
                description := cur.description ++ " " ++ goTrimSpace cont })) ∧
      withdrawalsStep p order st line =
        (st.1, some { cur with
          description := cur.description ++ " " ++ goTrimSpace cont })) := by
  constructor
  · intro d desc a h
    unfold paymentsStep withdrawalsStep
    rw [h]
    exact ⟨rfl, rfl⟩
  · intro cont cur hnone hcont hcur
    unfold paymentsStep withdrawalsStep
    rw [hnone, hcur, hcont]
    exact ⟨rfl, rfl⟩

/-- C2 amended-claim witness: a sixteen-digit continuation line under an
open record is dropped by the payments loop and appended by the withdrawals
loop, via `c2_multiline_assembly` at this input. -/
theorem c2_multiline_assembly_witness :
    paymentsStep ⟨2025, 12⟩ vendorPatternsList
      ([], some ⟨"2025-12-02", "WD FOO", -100, "withdrawal", "", "", "", ""⟩)
      "      1234567890123456" =
      ([], some ⟨"2025-12-02", "WD FOO", -100, "withdrawal", "", "", "", ""⟩) ∧
    withdrawalsStep ⟨2025, 12⟩ vendorPatternsList
      ([], some ⟨"2025-12-02", "WD FOO", -100, "withdrawal", "", "", "", ""⟩)
      "      1234567890123456" =
      ([], some ⟨"2025-12-02", "WD FOO 1234567890123456", -100, "withdrawal",
        "", "", "", ""⟩) := by
  have h := (c2_multiline_assembly ⟨2025, 12⟩ vendorPatternsList
      ([], some ⟨"2025-12-02", "WD FOO", -100, "withdrawal", "", "", "", ""⟩)
      "      1234567890123456").2
      "1234567890123456"
      ⟨"2025-12-02", "WD FOO", -100, "withdrawal", "", "", "", ""⟩
      rfl rfl rfl
  exact ⟨h.1.trans (by decide), h.2.trans (by decide)⟩


/-! ### Check deduplication (C9) -/

/-- The dedup fold's invariant: the `seen` set is exactly the column of
check numbers already emitted. -/
lemma checksStep_inv (p : TDBankParser) (st : List ParsedTransaction × List String)
    (caps : List String)
    (h : st.1.map (fun t => t.checkNumber) = st.2) :
    (checksStep p st caps).1.map (fun t => t.checkNumber) = (checksStep p st caps).2 := by
  rcases caps with _ | ⟨t1, caps⟩
  · exact h
  rcases caps with _ | ⟨t2, caps⟩
  · exact h
  rcases caps with _ | ⟨t3, caps⟩
  · exact h
  rcases caps with _ | ⟨t4, caps⟩
  · by_cases hc : t2 ∈ st.2
    · simpa [checksStep, hc] using h
    · simp [checksStep, hc, mkCheckTxn, h]
  · exact h

/-- The invariant holds through the whole fold. -/
lemma foldl_checksStep_inv (p : TDBankParser) (ms : List (List String)) :
    ∀ st, st.1.map (fun t => t.checkNumber) = st.2 →
      ((ms.foldl (checksStep p) st).1).map (fun t => t.checkNumber) =
        (ms.foldl (checksStep p) st).2 := by
  induction ms with
  | nil => exact fun st h => h
  | cons caps rest ih =>
    intro st h
    simp only [List.foldl_cons]
    exact ih _ (checksStep_inv p st caps h)

/-- The `seen` set only grows. -/
lemma checksStep_seen_sub (p : TDBankParser) (st : List ParsedTransaction × List String)
    (caps : List String) : st.2 ⊆ (checksStep p st caps).2 := by
  rcases caps with _ | ⟨t1, caps⟩
  · exact fun a ha => ha
  rcases caps with _ | ⟨t2, caps⟩
  · exact fun a ha => ha
  rcases caps with _ | ⟨t3, caps⟩
  · exact fun a ha => ha
  rcases caps with _ | ⟨t4, caps⟩
  · by_cases hc : t2 ∈ st.2
    · simp [checksStep, hc]
    · intro a ha
      simp only [checksStep]
      rw [if_neg (by simpa using hc)]
      exact List.mem_append_left _ ha
  · exact fun a ha => ha

/-- No record whose check number is not `serial` affects the
`serial`-filtered output. -/
lemma filter_serial_nil (l : List ParsedTransaction) (seen : List String)
    (serial : String)
    (hinv : l.map (fun t => t.checkNumber) = seen) (hnot : serial ∉ seen) :
    l.filter (fun t => t.checkNumber = serial) = [] := by
  rw [List.filter_eq_nil_iff]
  intro t ht
  simp only [decide_eq_true_eq]
  intro hcn
  exact hnot (hinv ▸ (hcn ▸ List.mem_map_of_mem (fun t => t.checkNumber) ht))

/-- Once a serial is in the `seen` set, the rest of the fold adds no record
carrying it. -/
lemma foldl_checksStep_frozen (p : TDBankParser) (serial : String)
    (ms : List (List String)) :
    ∀ st, serial ∈ st.2 → st.1.map (fun t => t.checkNumber) = st.2 →
      (ms.foldl (checksStep p) st).1.filter (fun t => t.checkNumber = serial) =
        st.1.filter (fun t => t.checkNumber = serial) := by
  induction ms with
  | nil => exact fun st _ _ => rfl
  | cons caps rest ih =>
    intro st hmem hinv
    simp only [List.foldl_cons]
    rcases caps with _ | ⟨t1, caps⟩
    · exact ih st hmem hinv
    rcases caps with _ | ⟨t2, caps⟩
    · exact ih st hmem hinv
    rcases caps with _ | ⟨t3, caps⟩
    · exact ih st hmem hinv
    rcases caps with _ | ⟨t4, caps⟩
    · by_cases hc : t2 ∈ st.2
      · have hstep : checksStep p st [t1, t2, t3] = st := by simp [checksStep, hc]
        rw [hstep]
        exact ih st hmem hinv
      · have hstep : checksStep p st [t1, t2, t3] =
            (st.1 ++ [mkCheckTxn p t1 t2 t3], st.2 ++ [t2]) := by
          simp [checksStep, hc]
        rw [hstep]
        have hne : t2 ≠ serial := by
          intro hEq
          exact hc (by simpa [hEq] using hmem)
        have hrec := ih (st.1 ++ [mkCheckTxn p t1 t2 t3], st.2 ++ [t2])
          (List.mem_append_left _ hmem)
          (by simp [hinv, mkCheckTxn])
        rw [hrec]
        simp [List.filter_append, mkCheckTxn, hne]
    · exact ih st hmem hinv

/-- The `seen` set stays duplicate-free. -/
lemma foldl_checksStep_nodup (p : TDBankParser) (ms : List (List String)) :
    ∀ st : List ParsedTransaction × List String, st.2.Nodup →
      ((ms.foldl (checksStep p) st).2).Nodup := by
  induction ms with
  | nil => exact fun st h => h
  | cons caps rest ih =>
    intro st h
    simp only [List.foldl_cons]
    refine ih _ ?_
    rcases caps with _ | ⟨t1, caps⟩
    · exact h
    rcases caps with _ | ⟨t2, caps⟩
    · exact h
    rcases caps with _ | ⟨t3, caps⟩
    · exact h
    rcases caps with _ | ⟨t4, caps⟩
    · by_cases hc : t2 ∈ st.2
      · simpa [checksStep, hc] using h
      · have hstep : checksStep p st [t1, t2, t3] =
            (st.1 ++ [mkCheckTxn p t1 t2 t3], st.2 ++ [t2]) := by
          simp [checksStep, hc]
        rw [hstep]
        simpa [List.nodup_append] using ⟨h, fun hmem => hc hmem⟩
    · exact h

/-- The first capture triple carrying a serial decides that serial's single
output record. -/
lemma foldl_checksStep_first (p : TDBankParser) (serial d a : String)
    (pre : List (List String)) :
    ∀ post st, serial ∉ st.2 → st.1.map (fun t => t.checkNumber) = st.2 →
      (∀ caps ∈ pre, capsSerial caps ≠ some serial) →
      ((pre ++ [d, serial, a] :: post).foldl (checksStep p) st).1.filter
          (fun t => t.checkNumber = serial) = [mkCheckTxn p d serial a] := by
  induction pre with
  | nil =>
    intro post st hnot hinv _
    simp only [List.nil_append, List.foldl_cons]
    have hstep : checksStep p st [d, serial, a] =
        (st.1 ++ [mkCheckTxn p d serial a], st.2 ++ [serial]) := by
      simp [checksStep, hnot]
    rw [hstep, foldl_checksStep_frozen p serial post _
      (List.mem_append_right _ (List.mem_singleton_self _))
      (by simp [hinv, mkCheckTxn])]
    rw [List.filter_append, filter_serial_nil st.1 st.2 serial hinv hnot]
    simp [mkCheckTxn]
  | cons caps pre ih =>
    intro post st hnot hinv hpre
    have hhead := hpre caps (List.mem_cons_self _ _)
    have htail : ∀ c ∈ pre, capsSerial c ≠ some serial :=
      fun c hc => hpre c (List.mem_cons.mpr (Or.inr hc))
    simp only [List.cons_append, List.foldl_cons]
    rcases caps with _ | ⟨t1, caps⟩
    · exact ih post st hnot hinv htail
    rcases caps with _ | ⟨t2, caps⟩
    · exact ih post st hnot hinv htail
    rcases caps with _ | ⟨t3, caps⟩
    · exact ih post st hnot hinv htail
    rcases caps with _ | ⟨t4, caps⟩
    · have hne : t2 ≠ serial := by
        intro hEq
        exact hhead (by simp [capsSerial, hEq])
      by_cases hc : t2 ∈ st.2
      · have hstep : checksStep p st [t1, t2, t3] = st := by simp [checksStep, hc]
        rw [hstep]
        exact ih post st hnot hinv htail
      · have hstep : checksStep p st [t1, t2, t3] =
            (st.1 ++ [mkCheckTxn p t1 t2 t3], st.2 ++ [t2]) := by
          simp [checksStep, hc]
        rw [hstep]
        refine ih post _ ?_ (by simp [hinv, mkCheckTxn]) htail
        simp only [List.mem_append, List.mem_singleton]
        rintro (h | h)
        · exact hnot h
        · exact hne h.symm
    · exact ih post st hnot hinv htail

/-- C9: the checks section deduplicates by serial number — no two of its
output records share a check number, and the serial of any match triple is
represented by exactly one record, built from the first triple (in match
order) carrying that serial, so the first occurrence's date and amount are
kept. -/
theorem c9_check_dedup (p : TDBankParser) (sectionText : String)
    (pre post : List (List String)) (d serial a : String)
    (hms : reFindAll checkPatternM sectionText = pre ++ [d, serial, a] :: post)
    (hpre : ∀ caps ∈ pre, capsSerial caps ≠ some serial)
    (htrim : ¬ goTrimSpace sectionText = "") :
    ((parseChecks p sectionText).map (fun t => t.checkNumber)).Nodup ∧
    (parseChecks p sectionText).filter (fun t => t.checkNumber = serial) =
      [mkCheckTxn p d serial a] := by
  unfold parseChecks checksFold
  rw [if_neg htrim, hms]
  constructor
  · rw [foldl_checksStep_inv p _ ([], []) rfl]
    exact foldl_checksStep_nodup p _ ([], []) List.nodup_nil
  · exact foldl_checksStep_first p serial d a pre post ([], [])
      (List.not_mem_nil serial) rfl hpre

/-- C9 witness: the spec's two-column artifact — serial 2730 appearing in
both columns — yields exactly one record, the first occurrence's, via
`c9_check_dedup` at this input. -/
theorem c9_check_dedup_witness :
    ((parseChecks ⟨2025, 12⟩
        "12/01 2730        500.00    12/18 2739*       1,614.50\n12/01 2730        500.00").map
      (fun t => t.checkNumber)).Nodup ∧
    (parseChecks ⟨2025, 12⟩
        "12/01 2730        500.00    12/18 2739*       1,614.50\n12/01 2730        500.00").filter
      (fun t => t.checkNumber = "2730") = [mkCheckTxn ⟨2025, 12⟩ "12/01" "2730" "500.00"] :=
  c9_check_dedup ⟨2025, 12⟩
    "12/01 2730        500.00    12/18 2739*       1,614.50\n12/01 2730        500.00"
    [] [["12/18", "2739", "1,614.50"], ["12/01", "2730", "500.00"]]
    "12/01" "2730" "500.00" (by decide) (by decide) (by decide)


/-! ### Regex engine: membership lemmas (towards the sign invariant, C4) -/

/-- Outcomes of `rmSeq` decompose into an outcome of each part. -/
lemma mem_rmSeq {a b : RegM} {cs : List Char} {pr : List Char × List String}
    (h : pr ∈ rmSeq a b cs) :
    ∃ p1 ∈ a cs, ∃ p2 ∈ b p1.1, pr = (p2.1, p1.2 ++ p2.2) := by
  unfold rmSeq at h
  obtain ⟨p1, hp1, hmap⟩ := List.mem_flatMap.mp h
  obtain ⟨p2, hp2, hpr⟩ := List.mem_map.mp hmap
  exact ⟨p1, hp1, p2, hp2, hpr.symm⟩

/-- Outcomes of `rmEps`. -/
lemma mem_rmEps {cs : List Char} {pr : List Char × List String}
    (h : pr ∈ rmEps cs) : pr = (cs, []) := by
  simpa [rmEps] using h

/-- Outcomes of `rmCap` wrap an inner outcome, capturing the consumed
prefix. -/
lemma mem_rmCap {a : RegM} {cs : List Char} {pr : List Char × List String}
    (h : pr ∈ rmCap a cs) :
    ∃ q ∈ a cs, pr = (q.1, String.mk (cs.take (cs.length - q.1.length)) :: q.2) := by
  unfold rmCap at h
  obtain ⟨q, hq, hpr⟩ := List.mem_map.mp h
  exact ⟨q, hq, hpr.symm⟩

/-- Outcomes of `rmClassRep` drop some admissible run length and capture
nothing. -/
lemma mem_rmClassRep {p : Char → Bool} {lo : Nat} {hi : Option Nat} {g : Bool}
    {cs : List Char} {pr : List Char × List String}
    (h : pr ∈ rmClassRep p lo hi g cs) :
    ∃ k, lo ≤ k ∧ k ≤ (cs.takeWhile p).length ∧ pr = (cs.drop k, []) := by
  unfold rmClassRep at h
  rcases hi with _ | hh
  · dsimp only at h
    by_cases htop : (cs.takeWhile p).length < lo
    · rw [if_pos htop] at h
      exact absurd h (List.not_mem_nil pr)
    · rw [if_neg htop] at h
      have hex : ∃ k, (lo ≤ k ∧ k < lo + ((cs.takeWhile p).length - lo + 1)) ∧
          (cs.drop k, ([] : List String)) = pr := by
        cases g
        · simpa using h
        · simpa using h
      obtain ⟨k, hk, hpr⟩ := hex
      exact ⟨k, hk.1, by omega, hpr.symm⟩
  · dsimp only at h
    by_cases htop : Nat.min hh (cs.takeWhile p).length < lo
    · rw [if_pos htop] at h
      exact absurd h (List.not_mem_nil pr)
    · rw [if_neg htop] at h
      have hex : ∃ k, (lo ≤ k ∧ k < lo + (Nat.min hh (cs.takeWhile p).length - lo + 1)) ∧
          (cs.drop k, ([] : List String)) = pr := by
        cases g
        · simpa using h
        · simpa using h
      obtain ⟨k, hk, hpr⟩ := hex
      have hmin : Nat.min hh (cs.takeWhile p).length ≤ (cs.takeWhile p).length :=
        Nat.min_le_right _ _
      exact ⟨k, hk.1, by omega, hpr.symm⟩

/-- Outcomes of `rmLit` consume exactly the literal. -/
lemma mem_rmLit {c : Char} {cs : List Char} {pr : List Char × List String}
    (h : pr ∈ rmLit c cs) : ∃ rest, cs = c :: rest ∧ pr = (rest, []) := by
  rcases cs with _ | ⟨x, rest⟩
  · simp [rmLit] at h
  · by_cases hx : x = c
    · subst hx
      exact ⟨rest, rfl, by simpa [rmLit] using h⟩
    · simp [rmLit, hx] at h

/-- Prefixes within the scanned run satisfy the class. -/
lemma take_all_of_le_takeWhile {p : Char → Bool} :
    ∀ (cs : List Char) (k : Nat), k ≤ (cs.takeWhile p).length → (cs.take k).all p := by
  intro cs
  induction cs with
  | nil => intro k _; simp
  | cons c t ih =>
    intro k hk
    cases k with
    | zero => simp
    | succ k2 =>
      by_cases hc : p c = true
      · rw [List.takeWhile_cons_of_pos hc] at hk
        simp only [List.take_succ_cons, List.all_cons, hc, Bool.true_and]
        exact ih k2 (by simpa using hk)
      · rw [List.takeWhile_cons_of_neg hc] at hk
        simp at hk


/-- Alternation outcomes come from one side. -/
lemma mem_rmAlt {a b : RegM} {cs : List Char} {pr : List Char × List String}
    (h : pr ∈ rmAlt a b cs) : pr ∈ a cs ∨ pr ∈ b cs :=
  List.mem_append.mp h

/-- The head of a nonempty outcome list is an outcome. -/
lemma mem_of_head_some {a : RegM} {cs : List Char} {pr : List Char × List String}
    (h : (a cs).head? = some pr) : pr ∈ a cs := by
  rcases hl : a cs with _ | ⟨x, t⟩
  · rw [hl] at h
    simp at h
  · rw [hl] at h
    simp only [List.head?_cons, Option.some.injEq] at h
    exact h ▸ List.mem_cons_self _ _

/-- Every outcome of the amount pattern `[\d,]+\.\d{2}` consumes a
prefix of digit, comma and point characters and captures nothing. -/
lemma amountGroup_spec {cs : List Char} {pr : List Char × List String}
    (h : pr ∈ amountGroupM cs) :
    ∃ k, pr = (cs.drop k, []) ∧ k ≤ cs.length ∧
      (cs.take k).all (fun c => isAmtChar c || c = '.') := by
  unfold amountGroupM rmSeqs at h
  simp only [List.foldr] at h
  obtain ⟨p1, hp1, q1, hq1, hpr⟩ := mem_rmSeq h
  obtain ⟨k1, hk1lo, hk1ub, hp1eq⟩ := mem_rmClassRep hp1
  obtain ⟨p2, hp2, q2, hq2, hq1eq⟩ := mem_rmSeq hq1
  obtain ⟨rest2, hrest2, hp2eq⟩ := mem_rmLit hp2
  obtain ⟨p3, hp3, q3, hq3, hq2eq⟩ := mem_rmSeq hq2
  obtain ⟨k2, hk2lo, hk2ub, hp3eq⟩ := mem_rmClassRep hp3
  have hq3eq := mem_rmEps hq3
  have hcs1 : cs.drop k1 = '.' :: rest2 := by
    rw [hp1eq] at hrest2
    exact hrest2
  have hp21 : p2.1 = rest2 := by rw [hp2eq]
  rw [hp21] at hp3eq hk2ub
  have hpr1 : pr.1 = rest2.drop k2 := by
    rw [hpr, hq1eq, hq2eq, hq3eq, hp3eq]
  have hpr2 : pr.2 = [] := by
    rw [hpr, hq1eq, hq2eq, hq3eq, hp3eq, hp1eq, hp2eq]
    rfl
  have hlen : cs.length - k1 = rest2.length + 1 := by
    simpa using congrArg List.length hcs1
  have hk1len : k1 ≤ cs.length := by
    by_contra hcon
    push_neg at hcon
    omega
  have hk2len : k2 ≤ rest2.length :=
    le_trans hk2ub ((List.takeWhile_prefix _).sublist.length_le)
  have hdrop : cs.drop (k1 + (1 + k2)) = rest2.drop k2 := by
    calc cs.drop (k1 + (1 + k2))
        = (cs.drop k1).drop (1 + k2) := (List.drop_drop (1 + k2) k1 cs).symm
      _ = ('.' :: rest2).drop (1 + k2) := by rw [hcs1]
      _ = ('.' :: rest2).drop (k2 + 1) := by rw [Nat.add_comm]
      _ = rest2.drop k2 := by rw [List.drop_succ_cons]
  refine ⟨k1 + (1 + k2), ?_, by omega, ?_⟩
  · rcases pr with ⟨prA, prB⟩
    simp only at hpr1 hpr2
    rw [hpr1, hpr2, hdrop]
  · rw [List.take_add, List.all_append, Bool.and_eq_true]
    constructor
    · have h1 := take_all_of_le_takeWhile cs k1 hk1ub
      rw [List.all_eq_true] at h1 ⊢
      intro c hc
      simp [h1 c hc]
    · rw [hcs1]
      have hsucc : 1 + k2 = k2 + 1 := by omega
      rw [hsucc, List.take_succ_cons, List.all_cons, Bool.and_eq_true]
      refine ⟨by decide, ?_⟩
      have h2 := take_all_of_le_takeWhile rest2 k2 hk2ub
      rw [List.all_eq_true] at h2 ⊢
      intro c hc
      have hd : isAmtChar c = true := by simp [isAmtChar, h2 c hc]
      simp [hd]

/-- The date group captures nothing internally. -/
lemma dateGroup_caps {cs : List Char} {pr : List Char × List String}
    (h : pr ∈ dateGroupM cs) : pr.2 = [] := by
  unfold dateGroupM rmSeqs at h
  simp only [List.foldr] at h
  obtain ⟨p1, hp1, q1, hq1, hpr⟩ := mem_rmSeq h
  obtain ⟨k1, _, _, hp1eq⟩ := mem_rmClassRep hp1
  obtain ⟨p2, hp2, q2, hq2, hq1eq⟩ := mem_rmSeq hq1
  obtain ⟨rest2, _, hp2eq⟩ := mem_rmLit hp2
  obtain ⟨p3, hp3, q3, hq3, hq2eq⟩ := mem_rmSeq hq2
  obtain ⟨k2, _, _, hp3eq⟩ := mem_rmClassRep hp3
  have hq3eq := mem_rmEps hq3
  rw [hpr, hq1eq, hq2eq, hq3eq, hp3eq, hp1eq, hp2eq]
  rfl

/-- A transaction-line outcome carries exactly three captures, and the
amount capture consists of digit, comma and point characters only. -/
lemma transactionLineM_caps {cs : List Char} {pr : List Char × List String}
    (h : pr ∈ transactionLineM cs) :
    ∃ d desc a, pr.2 = [d, desc, a] ∧
      a.toList.all (fun c => isAmtChar c || c = '.') := by
  unfold transactionLineM rmSeqs at h
  simp only [List.foldr] at h
  obtain ⟨p1, hp1, q1, hq1, hpr⟩ := mem_rmSeq h
  obtain ⟨i1, hi1, hp1eq⟩ := mem_rmCap hp1
  obtain ⟨p2, hp2, q2, hq2, hq1eq⟩ := mem_rmSeq hq1
  obtain ⟨k2, _, _, hp2eq⟩ := mem_rmClassRep hp2
  obtain ⟨p3, hp3, q3, hq3, hq2eq⟩ := mem_rmSeq hq2
  obtain ⟨i3, hi3, hp3eq⟩ := mem_rmCap hp3
  obtain ⟨k3i, _, _, hi3eq⟩ := mem_rmClassRep hi3
  obtain ⟨p4, hp4, q4, hq4, hq3eq⟩ := mem_rmSeq hq3
  obtain ⟨k4, _, _, hp4eq⟩ := mem_rmClassRep hp4
  obtain ⟨p5, hp5, q5, hq5, hq4eq⟩ := mem_rmSeq hq4
  obtain ⟨i5, hi5, hp5eq⟩ := mem_rmCap hp5
  obtain ⟨k5, hi5eq, hk5len, hi5all⟩ := amountGroup_spec hi5
  obtain ⟨p6, hp6, q6, hq6, hq5eq⟩ := mem_rmSeq hq5
  obtain ⟨k6, _, _, hp6eq⟩ := mem_rmClassRep hp6
  have hq6eq := mem_rmEps hq6
  have hd1 := dateGroup_caps hi1
  refine ⟨String.mk (cs.take (cs.length - i1.1.length)),
    String.mk (p2.1.take (p2.1.length - i3.1.length)),
    String.mk (p4.1.take (p4.1.length - i5.1.length)), ?_, ?_⟩
  · rw [hpr, hq1eq, hq2eq, hq3eq, hq4eq, hq5eq, hq6eq, hp1eq, hp3eq, hp5eq]
    rw [hp2eq, hp4eq, hp6eq]
    simp only [hd1, hi3eq, hi5eq, List.append_nil, List.nil_append,
      List.cons_append, List.singleton_append]
  · rw [hi5eq]
    have hlen5 : p4.1.length - (p4.1.drop k5).length = k5 := by
      rw [List.length_drop]
      omega
    rw [hlen5]
    simpa using hi5all

/-- A successful transaction-line match yields an amount capture within the
digit, comma, point class (in particular free of minus signs). -/
lemma transactionLineMatch_amount {line : String} {d desc a : String}
    (h : transactionLineMatch line = some (d, desc, a)) :
    a.toList.all (fun c => isAmtChar c || c = '.') := by
  unfold transactionLineMatch at h
  split at h
  · rename_i d0 desc0 a0 heq
    simp only [Option.some.injEq, Prod.mk.injEq] at h
    obtain ⟨hd, hdesc, ha⟩ := h
    unfold reFullMatch at heq
    rcases hfind : (transactionLineM line.toList).find? (fun q => q.1.isEmpty)
      with _ | pr
    · rw [hfind] at heq
      simp at heq
    · rw [hfind] at heq
      simp only [Option.map_some', Option.some.injEq] at heq
      obtain ⟨dx, descx, ax, hcaps, hall⟩ :=
        transactionLineM_caps (List.mem_of_find?_eq_some hfind)
      rw [heq] at hcaps
      simp only [List.cons.injEq, and_true] at hcaps
      rw [← ha, hcaps.2.2]
      exact hall
  · exact absurd h (by simp)

/-- `parseDecimal` of a character list without a minus sign is
non-negative (or absent, defaulting to zero). -/
lemma parseDecimal_nonneg (cs : List Char) (hno : ∀ c ∈ cs, c ≠ '-') :
    0 ≤ (parseDecimal cs).getD 0 := by
  have hc : ¬ cs.head? = some '-' := by
    rcases cs with _ | ⟨c, t2⟩
    · simp
    · simp only [List.head?_cons, Option.some.injEq]
      exact hno c (List.mem_cons_self _ _)
  unfold parseDecimal
  rw [if_neg hc]
  dsimp only
  generalize (if cs.head? = some '-' ∨ cs.head? = some '+' then List.drop 1 cs else cs) = b
  split
  · split
    · simp
    · simp only [Option.getD_some, one_mul]
      rw [Rat.mkRat_eq_div]
      positivity
  · split
    · simp only [Option.getD_some, one_mul]
      rw [Rat.mkRat_eq_div]
      positivity
    · simp
  · simp

/-- `parseAmount` of a string without a minus sign is non-negative. -/
lemma parseAmount_nonneg {t : String}
    (h : ∀ c ∈ t.toList, c ≠ '-') : 0 ≤ parseAmount t := by
  unfold parseAmount
  exact parseDecimal_nonneg _ (fun c hc => h c (List.mem_of_mem_filter hc))

/-- Amount-class characters are never a minus sign. -/
lemma amtClass_no_minus {a : String}
    (h : a.toList.all (fun c => isAmtChar c || c = '.')) :
    ∀ c ∈ a.toList, c ≠ '-' := by
  intro c hc heq
  rw [List.all_eq_true] at h
  have h2 := h c hc
  rw [heq] at h2
  exact absurd h2 (by decide)

/-- The amount capture of a successful transaction-line match parses to a
non-negative value. -/
lemma transactionLineMatch_amount_nonneg {line d desc a : String}
    (h : transactionLineMatch line = some (d, desc, a)) : 0 ≤ parseAmount a :=
  parseAmount_nonneg (amtClass_no_minus (transactionLineMatch_amount h))

/-- Invariant preservation for accumulating folds. -/
lemma foldl_acc_inv {α β : Type} (P : α → Prop) (f : List α → β → List α)
    (hf : ∀ acc x t, t ∈ f acc x → t ∈ acc ∨ P t) :
    ∀ (l : List β) (acc : List α), (∀ t ∈ acc, P t) → ∀ t ∈ l.foldl f acc, P t := by
  intro l
  induction l with
  | nil =>
    intro acc hacc t ht
    exact hacc t ht
  | cons x xs ih =>
    intro acc hacc t ht
    refine ih (f acc x) ?_ t ht
    intro u hu
    rcases hf acc x u hu with h | h
    · exact hacc u h
    · exact h

/-- Every record `parseDeposits` emits is a non-negative deposit. -/
lemma parseDeposits_sign (p : TDBankParser) (order : List (String × (String → Bool)))
    (s : String) : ∀ t ∈ parseDeposits p order s,
      t.transactionType = "deposit" ∧ 0 ≤ t.amount := by
  unfold parseDeposits
  split
  · intro t ht
    simp at ht
  · refine foldl_acc_inv _ (depositsStep p order) ?_ _ [] (by simp)
    intro acc x t ht
    unfold depositsStep at ht
    split at ht
    · rename_i d desc a heq
      rw [List.mem_append] at ht
      rcases ht with h | h
      · exact Or.inl h
      · refine Or.inr ?_
        simp only [List.mem_singleton] at h
        subst h
        exact ⟨by simp [finalizeTransaction],
          by simpa [finalizeTransaction] using transactionLineMatch_amount_nonneg heq⟩
    · exact Or.inl ht

/-- Every record `parseCredits` emits is a non-negative credit. -/
lemma parseCredits_sign (p : TDBankParser) (order : List (String × (String → Bool)))
    (s : String) : ∀ t ∈ parseCredits p order s,
      t.transactionType = "credit" ∧ 0 ≤ t.amount := by
  unfold parseCredits
  split
  · intro t ht
    simp at ht
  · refine foldl_acc_inv _ (creditsStep p order) ?_ _ [] (by simp)
    intro acc x t ht
    unfold creditsStep at ht
    split at ht
    · rename_i d desc a heq
      rw [List.mem_append] at ht
      rcases ht with h | h
      · exact Or.inl h
      · refine Or.inr ?_
        simp only [List.mem_singleton] at h
        subst h
        exact ⟨by simp [finalizeTransaction],
          by simpa [finalizeTransaction] using transactionLineMatch_amount_nonneg heq⟩
    · exact Or.inl ht

/-- Every record `parseFees` emits is a non-positive fee. -/
lemma parseFees_sign (p : TDBankParser) (s : String) :
    ∀ t ∈ parseFees p s, t.transactionType = "fee" ∧ t.amount ≤ 0 := by
  unfold parseFees
  split
  · intro t ht
    simp at ht
  · refine foldl_acc_inv _ (feesStep p) ?_ _ [] (by simp)
    intro acc x t ht
    unfold feesStep at ht
    split at ht
    · rename_i d desc a heq
      rw [List.mem_append] at ht
      rcases ht with h | h
      · exact Or.inl h
      · refine Or.inr ?_
        simp only [List.mem_singleton] at h
        subst h
        exact ⟨rfl, neg_nonpos.mpr (transactionLineMatch_amount_nonneg heq)⟩
    · exact Or.inl ht

/-- A check-pattern outcome carries exactly three captures, and the amount
capture uses digit, comma and point characters only. -/
lemma checkPatternM_caps {cs : List Char} {pr : List Char × List String}
    (h : pr ∈ checkPatternM cs) :
    ∃ d serial a, pr.2 = [d, serial, a] ∧
      a.toList.all (fun c => isAmtChar c || c = '.') := by
  unfold checkPatternM rmSeqs at h
  simp only [List.foldr] at h
  obtain ⟨p1, hp1, q1, hq1, hpr⟩ := mem_rmSeq h
  obtain ⟨i1, hi1, hp1eq⟩ := mem_rmCap hp1
  obtain ⟨p2, hp2, q2, hq2, hq1eq⟩ := mem_rmSeq hq1
  obtain ⟨k2, _, _, hp2eq⟩ := mem_rmClassRep hp2
  obtain ⟨p3, hp3, q3, hq3, hq2eq⟩ := mem_rmSeq hq2
  obtain ⟨i3, hi3, hp3eq⟩ := mem_rmCap hp3
  obtain ⟨k3, _, _, hi3eq⟩ := mem_rmClassRep hi3
  obtain ⟨p4, hp4, q4, hq4, hq3eq⟩ := mem_rmSeq hq3
  obtain ⟨p5, hp5, q5, hq5, hq4eq⟩ := mem_rmSeq hq4
  obtain ⟨k5, _, _, hp5eq⟩ := mem_rmClassRep hp5
  obtain ⟨p6, hp6, q6, hq6, hq5eq⟩ := mem_rmSeq hq5
  obtain ⟨i6, hi6, hp6eq⟩ := mem_rmCap hp6
  obtain ⟨k6, hi6eq, hk6len, hi6all⟩ := amountGroup_spec hi6
  have hq6eq := mem_rmEps hq6
  have hd1 := dateGroup_caps hi1
  have hp4caps : p4.2 = [] := by
    unfold rmOptGreedy at hp4
    rcases mem_rmAlt hp4 with h4 | h4
    · obtain ⟨rest4, _, hp4eq⟩ := mem_rmLit h4
      rw [hp4eq]
    · rw [mem_rmEps h4]
  refine ⟨String.mk (cs.take (cs.length - i1.1.length)),
    String.mk (p2.1.take (p2.1.length - i3.1.length)),
    String.mk (p5.1.take (p5.1.length - i6.1.length)), ?_, ?_⟩
  · rw [hpr, hq1eq, hq2eq, hq3eq, hq4eq, hq5eq, hq6eq, hp1eq, hp3eq, hp6eq]
    rw [hp2eq, hp5eq]
    simp only [hd1, hi3eq, hi6eq, hp4caps, List.append_nil, List.nil_append,
      List.cons_append, List.singleton_append]
  · rw [hi6eq]
    have hlen6 : p5.1.length - (p5.1.drop k6).length = k6 := by
      rw [List.length_drop]
      omega
    rw [hlen6]
    simpa using hi6all

/-- Every capture list the all-matches search reports is the capture
component of some outcome of the pattern. -/
lemma reFindAllAux_sound {a : RegM} :
    ∀ (fuel : Nat) (cs : List Char) (caps : List String),
      caps ∈ reFindAllAux a fuel cs →
      ∃ cs2 pr, pr ∈ a cs2 ∧ caps = pr.2 := by
  intro fuel
  induction fuel with
  | zero =>
    intro cs caps h
    simp [reFindAllAux] at h
  | succ n ih =>
    intro cs caps
    rcases cs with _ | ⟨c, rest⟩
    · have hstep : reFindAllAux a (n + 1) [] =
          match (a []).head? with
          | some p =>
            if p.1.length < ([] : List Char).length then p.2 :: reFindAllAux a n p.1
            else [p.2]
          | none => [] := rfl
      intro h
      rw [hstep] at h
      split at h
      · rename_i p heq
        split at h
        · rcases List.mem_cons.mp h with h1 | h1
          · exact ⟨[], p, mem_of_head_some heq, h1⟩
          · exact ih p.1 caps h1
        · simp only [List.mem_singleton] at h
          exact ⟨[], p, mem_of_head_some heq, h⟩
      · simp at h
    · have hstep : reFindAllAux a (n + 1) (c :: rest) =
          match (a (c :: rest)).head? with
          | some p =>
            if p.1.length < (c :: rest).length then p.2 :: reFindAllAux a n p.1
            else p.2 :: reFindAllAux a n rest
          | none => reFindAllAux a n rest := rfl
      intro h
      rw [hstep] at h
      split at h
      · rename_i p heq
        split at h
        · rcases List.mem_cons.mp h with h1 | h1
          · exact ⟨c :: rest, p, mem_of_head_some heq, h1⟩
          · exact ih p.1 caps h1
        · rcases List.mem_cons.mp h with h1 | h1
          · exact ⟨c :: rest, p, mem_of_head_some heq, h1⟩
          · exact ih rest caps h1
      · exact ih rest caps h

/-- Every match triple the checks scan reports carries an amount capture that
parses to a non-negative value. -/
lemma checksCaps_nonneg {s : String} {caps : List String}
    (h : caps ∈ reFindAll checkPatternM s) :
    ∀ d serial a, caps = [d, serial, a] → 0 ≤ parseAmount a := by
  intro d serial a hcaps
  obtain ⟨cs2, pr, hpr, hcapseq⟩ := reFindAllAux_sound _ _ _ h
  obtain ⟨d0, s0, a0, hpr2, hall⟩ := checkPatternM_caps hpr
  have heq3 : [d, serial, a] = [d0, s0, a0] := by
    rw [← hcaps, hcapseq, hpr2]
  simp only [List.cons.injEq, and_true] at heq3
  rw [heq3.2.2]
  exact parseAmount_nonneg (amtClass_no_minus hall)

/-- The checks dedup fold only accumulates non-positive check records. -/
lemma checksFold_sign (p : TDBankParser) :
    ∀ (ms : List (List String)) (st : List ParsedTransaction × List String),
      (∀ caps ∈ ms, ∀ d serial a, caps = [d, serial, a] → 0 ≤ parseAmount a) →
      (∀ t ∈ st.1, t.transactionType = "check" ∧ t.amount ≤ 0) →
      ∀ t ∈ (ms.foldl (checksStep p) st).1,
        t.transactionType = "check" ∧ t.amount ≤ 0 := by
  intro ms
  induction ms with
  | nil =>
    intro st _ hst t ht
    exact hst t ht
  | cons caps rest ih =>
    intro st hms hst t ht
    simp only [List.foldl_cons] at ht
    refine ih (checksStep p st caps) (fun c hc => hms c (List.mem_cons_of_mem _ hc)) ?_ t ht
    intro u hu
    unfold checksStep at hu
    split at hu
    · rename_i d serial a
      split at hu
      · exact hst u hu
      · rw [List.mem_append] at hu
        rcases hu with h | h
        · exact hst u h
        · simp only [List.mem_singleton] at h
          subst h
          refine ⟨rfl, ?_⟩
          exact neg_nonpos.mpr (hms [d, serial, a] (List.mem_cons_self _ _) d serial a rfl)
    · exact hst u hu

/-- Every record `parseChecks` emits is a non-positive check. -/
lemma parseChecks_sign (p : TDBankParser) (s : String) :
    ∀ t ∈ parseChecks p s, t.transactionType = "check" ∧ t.amount ≤ 0 := by
  unfold parseChecks checksFold
  split
  · intro t ht
    simp at ht
  · exact checksFold_sign p (reFindAll checkPatternM s) ([], [])
      (fun caps hc => checksCaps_nonneg hc) (by simp)

/-- The payments scanner state only ever holds non-positive debit records. -/
lemma paymentsFold_sign (p : TDBankParser) (order : List (String × (String → Bool))) :
    ∀ (lines : List String) (st : List ParsedTransaction × Option ParsedTransaction),
      (∀ t ∈ st.1, t.transactionType = "debit" ∧ t.amount ≤ 0) →
      (∀ cur, st.2 = some cur → cur.transactionType = "debit" ∧ cur.amount ≤ 0) →
      (∀ t ∈ (lines.foldl (paymentsStep p order) st).1,
          t.transactionType = "debit" ∧ t.amount ≤ 0) ∧
      (∀ cur, (lines.foldl (paymentsStep p order) st).2 = some cur →
          cur.transactionType = "debit" ∧ cur.amount ≤ 0) := by
  intro lines
  induction lines with
  | nil =>
    intro st h1 h2
    exact ⟨h1, h2⟩
  | cons line rest ih =>
    intro st h1 h2
    simp only [List.foldl_cons]
    refine ih (paymentsStep p order st line) ?_ ?_
    · intro t ht
      unfold paymentsStep at ht
      split at ht
      · rename_i d desc a heq
        dsimp only at ht
        rcases hst2 : st.2 with _ | cur
        · rw [hst2] at ht
          exact h1 t ht
        · rw [hst2] at ht
          rw [List.mem_append] at ht
          rcases ht with h | h
          · exact h1 t h
          · simp only [List.mem_singleton] at h
            subst h
            obtain ⟨hty, ham⟩ := h2 cur hst2
            exact ⟨by simpa [finalizeTransaction] using hty,
                   by simpa [finalizeTransaction] using ham⟩
      · split at ht
        · split at ht
          · dsimp only at ht
            split at ht
            · exact h1 t ht
            · exact h1 t ht
          · exact h1 t ht
        · exact h1 t ht
    · intro cur hcur
      unfold paymentsStep at hcur
      split at hcur
      · rename_i d desc a heq
        dsimp only at hcur
        simp only [Option.some.injEq] at hcur
        subst hcur
        exact ⟨rfl, neg_nonpos.mpr (transactionLineMatch_amount_nonneg heq)⟩
      · split at hcur
        · rename_i cur0 hst2
          split at hcur
          · dsimp only at hcur
            split at hcur
            · exact h2 cur hcur
            · simp only [Option.some.injEq] at hcur
              subst hcur
              obtain ⟨hty, ham⟩ := h2 cur0 hst2
              exact ⟨hty, ham⟩
          · exact h2 cur hcur
        · exact h2 cur hcur

/-- Every record `parsePayments` emits is a non-positive debit. -/
lemma parsePayments_sign (p : TDBankParser) (order : List (String × (String → Bool)))
    (s : String) : ∀ t ∈ parsePayments p order s,
      t.transactionType = "debit" ∧ t.amount ≤ 0 := by
  unfold parsePayments
  split
  · intro t ht
    simp at ht
  · intro t ht
    dsimp only at ht
    obtain ⟨hacc, hopen⟩ := paymentsFold_sign p order (scanLines s) ([], none)
      (by simp) (by simp)
    rcases hst2 : ((scanLines s).foldl (paymentsStep p order) ([], none)).2 with _ | cur
    · rw [hst2] at ht
      exact hacc t ht
    · rw [hst2] at ht
      rw [List.mem_append] at ht
      rcases ht with h | h
      · exact hacc t h
      · simp only [List.mem_singleton] at h
        subst h
        obtain ⟨hty, ham⟩ := hopen cur hst2
        exact ⟨by simpa [finalizeTransaction] using hty,
               by simpa [finalizeTransaction] using ham⟩

/-- The withdrawals scanner state only ever holds non-positive withdrawal
records. -/
lemma withdrawalsFold_sign (p : TDBankParser) (order : List (String × (String → Bool))) :
    ∀ (lines : List String) (st : List ParsedTransaction × Option ParsedTransaction),
      (∀ t ∈ st.1, t.transactionType = "withdrawal" ∧ t.amount ≤ 0) →
      (∀ cur, st.2 = some cur → cur.transactionType = "withdrawal" ∧ cur.amount ≤ 0) →
      (∀ t ∈ (lines.foldl (withdrawalsStep p order) st).1,
          t.transactionType = "withdrawal" ∧ t.amount ≤ 0) ∧
      (∀ cur, (lines.foldl (withdrawalsStep p order) st).2 = some cur →
          cur.transactionType = "withdrawal" ∧ cur.amount ≤ 0) := by
  intro lines
  induction lines with
  | nil =>
    intro st h1 h2
    exact ⟨h1, h2⟩
  | cons line rest ih =>
    intro st h1 h2
    simp only [List.foldl_cons]
    refine ih (withdrawalsStep p order st line) ?_ ?_
    · intro t ht
      unfold withdrawalsStep at ht
      split at ht
      · rename_i d desc a heq
        dsimp only at ht
        rcases hst2 : st.2 with _ | cur
        · rw [hst2] at ht
          exact h1 t ht
        · rw [hst2] at ht
          rw [List.mem_append] at ht
          rcases ht with h | h
          · exact h1 t h
          · simp only [List.mem_singleton] at h
            subst h
            obtain ⟨hty, ham⟩ := h2 cur hst2
            exact ⟨by simpa [finalizeTransaction] using hty,
                   by simpa [finalizeTransaction] using ham⟩
      · split at ht
        · split at ht
          · exact h1 t ht
          · exact h1 t ht
        · exact h1 t ht
    · intro cur hcur
      unfold withdrawalsStep at hcur
      split at hcur
      · rename_i d desc a heq
        dsimp only at hcur
        simp only [Option.some.injEq] at hcur
        subst hcur
        exact ⟨rfl, neg_nonpos.mpr (transactionLineMatch_amount_nonneg heq)⟩
      · split at hcur
        · rename_i cur0 hst2
          split at hcur
          · simp only [Option.some.injEq] at hcur
            subst hcur
            obtain ⟨hty, ham⟩ := h2 cur0 hst2
            exact ⟨hty, ham⟩
          · exact h2 cur hcur
        · exact h2 cur hcur

/-- Every record `parseWithdrawals` emits is a non-positive withdrawal. -/
lemma parseWithdrawals_sign (p : TDBankParser) (order : List (String × (String → Bool)))
    (s : String) : ∀ t ∈ parseWithdrawals p order s,
      t.transactionType = "withdrawal" ∧ t.amount ≤ 0 := by
  unfold parseWithdrawals
  split
  · intro t ht
    simp at ht
  · intro t ht
    dsimp only at ht
    obtain ⟨hacc, hopen⟩ := withdrawalsFold_sign p order (scanLines s) ([], none)
      (by simp) (by simp)
    rcases hst2 : ((scanLines s).foldl (withdrawalsStep p order) ([], none)).2 with _ | cur
    · rw [hst2] at ht
      exact hacc t ht
    · rw [hst2] at ht
      rw [List.mem_append] at ht
      rcases ht with h | h
      · exact hacc t h
      · simp only [List.mem_singleton] at h
        subst h
        obtain ⟨hty, ham⟩ := hopen cur hst2
        exact ⟨by simpa [finalizeTransaction] using hty,
               by simpa [finalizeTransaction] using ham⟩

/-- A record typed deposit or credit with non-negative amount satisfies the
sign mapping. -/
lemma signConsistent_pos {t : ParsedTransaction}
    (h : t.transactionType = "deposit" ∨ t.transactionType = "credit")
    (ham : 0 ≤ t.amount) : signConsistent t := by
  refine ⟨fun _ => ham, fun hcon => ?_⟩
  exfalso
  rcases h with h | h <;> rcases hcon with h2 | h2 | h2 | h2 <;>
    rw [h] at h2 <;> exact absurd h2 (by decide)

/-- A record typed check, debit, withdrawal or fee with non-positive amount
satisfies the sign mapping. -/
lemma signConsistent_neg {t : ParsedTransaction}
    (h : t.transactionType = "check" ∨ t.transactionType = "debit" ∨
         t.transactionType = "withdrawal" ∨ t.transactionType = "fee")
    (ham : t.amount ≤ 0) : signConsistent t := by
  refine ⟨fun hcon => ?_, fun _ => ham⟩
  exfalso
  rcases hcon with h2 | h2 <;> rcases h with h | h | h | h <;>
    rw [h2] at h <;> exact absurd h (by decide)

/-! ### Sign invariant (C4) -/

/-- C4 counterexample: a manual type correction of a 5-dollar debit row to
`credit` re-derives the sign through the review handler's rule, which treats
only deposit, ach and refund as positive; the corrected credit row carries
amount `-5`, not the positive amount the claim's mapping demands for
credits. -/
theorem c4_counterexample :
    ((updateBankTransactionTypeAndSign
        ⟨[], [⟨10, 1, "2025-12-05", "POS PURCHASE", 5, "debit", "expense", "", "",
               "", none, "unmatched", ""⟩], [], []⟩
        10 "credit" (shouldBePositiveFor "credit")).txns.map
      (fun t => (t.transactionType, t.amount)) = [("credit", -5)]) ∧
    ¬ (0 : ℚ) ≤ -5 := by
  constructor
  · decide
  · decide

/-- C4 (amended): every record the six section parsers emit satisfies the
sign-type mapping — deposits and credits carry non-negative amounts, checks,
debits, withdrawals and fees non-positive amounts; and a manual type
correction re-derives the sign by the review handler's rule
`shouldBePositiveFor` — the corrected row's amount is non-negative when the
target type is deposit, ach or refund and non-positive for every other
target type, including `credit`. -/
theorem c4_sign_invariant :
    (∀ (p : TDBankParser) (order : List (String × (String → Bool)))
        (sd sc sk sp sw sf : String),
      ∀ t ∈ parseAllSections p order sd sc sk sp sw sf, signConsistent t) ∧
    (∀ (db : DBState) (txnId : Nat) (ty : String),
      ∀ t ∈ (updateBankTransactionTypeAndSign db txnId ty
               (shouldBePositiveFor ty)).txns,
        t.id = txnId →
        (if shouldBePositiveFor ty then 0 ≤ t.amount else t.amount ≤ 0)) := by
  constructor
  · intro p order sd sc sk sp sw sf t ht
    unfold parseAllSections at ht
    simp only [List.mem_append] at ht
    rcases ht with ((((h | h) | h) | h) | h) | h
    · obtain ⟨hty, ham⟩ := parseDeposits_sign p order sd t h
      exact signConsistent_pos (Or.inl hty) ham
    · obtain ⟨hty, ham⟩ := parseCredits_sign p order sc t h
      exact signConsistent_pos (Or.inr hty) ham
    · obtain ⟨hty, ham⟩ := parseChecks_sign p sk t h
      exact signConsistent_neg (Or.inl hty) ham
    · obtain ⟨hty, ham⟩ := parsePayments_sign p order sp t h
      exact signConsistent_neg (Or.inr (Or.inl hty)) ham
    · obtain ⟨hty, ham⟩ := parseWithdrawals_sign p order sw t h
      exact signConsistent_neg (Or.inr (Or.inr (Or.inl hty))) ham
    · obtain ⟨hty, ham⟩ := parseFees_sign p sf t h
      exact signConsistent_neg (Or.inr (Or.inr (Or.inr hty))) ham
  · intro db txnId ty t ht hid
    unfold updateBankTransactionTypeAndSign at ht
    simp only [List.mem_map] at ht
    obtain ⟨orig, horig, heq⟩ := ht
    by_cases hidorig : orig.id = txnId
    · rw [if_pos hidorig] at heq
      by_cases hdep : ty = "deposit"
      · rw [if_pos hdep] at heq
        subst heq
        rw [hdep]
        simp only [shouldBePositiveFor]
        rw [if_pos (by decide)]
        exact abs_nonneg _
      · rw [if_neg hdep] at heq
        by_cases hpos : shouldBePositiveFor ty = true
        · rw [if_pos hpos] at heq
          subst heq
          rw [if_pos hpos]
          exact abs_nonneg _
        · rw [if_neg hpos] at heq
          subst heq
          rw [if_neg hpos]
          exact neg_nonpos.mpr (abs_nonneg _)
    · rw [if_neg hidorig] at heq
      subst heq
      exact absurd hid hidorig

/-- C4 witness: the amended sign invariant evaluated on a concrete December
2025 statement with one 500-dollar deposit line and on the concrete credit
correction of a 5-dollar debit row. -/
theorem c4_sign_invariant_witness :
    signConsistent ⟨"2025-12-05", "STORE A", 500, "deposit", "income_other",
      "", "", ""⟩ ∧
    (if shouldBePositiveFor "credit" then
        0 ≤ (⟨10, 1, "2025-12-05", "POS PURCHASE", -5, "credit", "expense", "",
              "", "", none, "unmatched", ""⟩ : BankTxnRow).amount
      else (⟨10, 1, "2025-12-05", "POS PURCHASE", -5, "credit", "expense", "",
              "", "", none, "unmatched", ""⟩ : BankTxnRow).amount ≤ 0) :=
  ⟨c4_sign_invariant.1 ⟨2025, 12⟩ [] "12/05  STORE A  500.00" "" "" "" "" ""
      ⟨"2025-12-05", "STORE A", 500, "deposit", "income_other", "", "", ""⟩
      (by decide),
   c4_sign_invariant.2
      ⟨[], [⟨10, 1, "2025-12-05", "POS PURCHASE", 5, "debit", "expense", "", "",
             "", none, "unmatched", ""⟩], [], []⟩
      10 "credit"
      ⟨10, 1, "2025-12-05", "POS PURCHASE", -5, "credit", "expense", "", "", "",
       none, "unmatched", ""⟩
      (by decide) rfl⟩

end Homebook
